import Mathlib

/-!
Verification development for the MagiaTimeline intermediate-representation
pipeline (MagiaTimeline.py): frame points, the noise-removal pass, interval
extraction with the virtual end point, interval distance, and the
gap-bridging (fill-flash-blank) pass.

Python integers are modelled as `Int`/`Nat`; Python floor division `//` is
`Int.fdiv`; Python's stable `list.sort(key=...)` is modelled as a stable
insertion sort by the same key; code that raises is modelled with `Option`.
-/

namespace Magia

/-- `SubtitleType` enumeration (MagiaTimeline.py, class SubtitleType). -/
inductive SubtitleType where
  | DIALOG
  | BLACKSCREEN
  | WHITESCREEN
  | CGSUB
deriving DecidableEq, Repr

/-- Ordinal value of each member, as in the IntEnum. -/
def SubtitleType.toNat : SubtitleType → Nat
  | .DIALOG => 0
  | .BLACKSCREEN => 1
  | .WHITESCREEN => 2
  | .CGSUB => 3

/-- The members of the enumeration, in declaration order. -/
def SubtitleType.members : List SubtitleType :=
  [.DIALOG, .BLACKSCREEN, .WHITESCREEN, .CGSUB]

/-- `SubtitleType.num()`: the number of members of the enumeration. -/
def SubtitleType.num : Nat := SubtitleType.members.length

/-- `FramePoint`: index, timestamp and per-channel boolean flags
(MagiaTimeline.py, class FramePoint). -/
structure FramePoint where
  index : Nat
  timestamp : Int
  flags : List Bool
deriving DecidableEq, Repr

/-- `FramePoint.__init__`: construction validates `len(flags) == SubtitleType.num()`
and raises otherwise; the raise is modelled by `none`. -/
def FramePoint.init (index : Nat) (timestamp : Int) (flags : List Bool) :
    Option FramePoint :=
  if flags.length ≠ SubtitleType.num then none
  else some ⟨index, timestamp, flags⟩

/-- `framePoint.flags[type]`: flag of one channel. -/
def FramePoint.flag (fp : FramePoint) (c : SubtitleType) : Bool :=
  fp.flags.getD c.toNat false

/-- Flag of the frame at index `i` of a frame sequence (in-range in all uses,
since the passes bound their indices first). -/
def flagAt (fp : List FramePoint) (c : SubtitleType) (i : Nat) : Bool :=
  ((fp[i]?).map (FramePoint.flag · c)).getD false

/-- `FPIR.genVirtualEnd` (MagiaTimeline.py lines 104-108): index = length,
timestamp = last real timestamp, all flags false.  `framePoints[-1]` raises
on an empty sequence, modelled by `none`. -/
def FPIR.genVirtualEnd (framePoints : List FramePoint) : Option FramePoint :=
  match framePoints.getLast? with
  | none => none
  | some lastFp =>
      some ⟨framePoints.length, lastFp.timestamp, List.replicate SubtitleType.num false⟩

/-- `FPIR.getFramePointsWithVirtualEnd`: the stored sequence plus the virtual
end point; the stored sequence itself is not modified. -/
def FPIR.getFramePointsWithVirtualEnd (framePoints : List FramePoint) :
    Option (List FramePoint) :=
  (FPIR.genVirtualEnd framePoints).map (fun ve => framePoints ++ [ve])

/-- Backward walk of `FPIRPassRemoveNoise.apply` (lines 134-137): starting at
`id - 1` and taking at most `k` steps downward, count consecutive frames whose
flag equals `v`, stopping at the first differing flag. -/
def FPIRPassRemoveNoise.countBack (fp : List FramePoint) (c : SubtitleType)
    (v : Bool) : Nat → Nat → Nat
  | _, 0 => 0
  | id, k + 1 =>
      if flagAt fp c (id - 1) = v then
        1 + FPIRPassRemoveNoise.countBack fp c v (id - 1) k
      else 0

/-- Forward walk of `FPIRPassRemoveNoise.apply` (lines 138-141): starting at
`id + 1` and taking at most `k` steps upward, count consecutive frames whose
flag equals `v`, stopping at the first differing flag. -/
def FPIRPassRemoveNoise.countFwd (fp : List FramePoint) (c : SubtitleType)
    (v : Bool) : Nat → Nat → Nat
  | _, 0 => 0
  | id, k + 1 =>
      if flagAt fp c (id + 1) = v then
        1 + FPIRPassRemoveNoise.countFwd fp c v (id + 1) k
      else 0

/-- One iteration of the `for id, framePoint` loop of
`FPIRPassRemoveNoise.apply` (lines 125-143): choose `minLength` from the
currently stored flag, skip boundary frames (`l < 0 or r > len - 1`,
i.e. `id < minLength` or `len ≤ id + minLength`), otherwise count the local
run around `id` and flip the flag in place iff the count is below
`minLength`. -/
def FPIRPassRemoveNoise.step (c : SubtitleType)
    (minPositiveLength minNegativeLength : Nat)
    (fp : List FramePoint) (id : Nat) : List FramePoint :=
  match fp[id]? with
  | none => fp
  | some framePoint =>
      let v := framePoint.flag c
      let minLength := if v then minPositiveLength else minNegativeLength
      if id < minLength ∨ fp.length ≤ id + minLength then fp
      else
        let length :=
          FPIRPassRemoveNoise.countBack fp c v id minLength +
          FPIRPassRemoveNoise.countFwd fp c v id minLength
        if length < minLength then
          fp.set id { framePoint with flags := framePoint.flags.set c.toNat (!v) }
        else fp

/-- The loop of `FPIRPassRemoveNoise.apply`, visiting `n` indices starting at
`id`, left to right, each iteration reading the current (possibly already
mutated) sequence. -/
def FPIRPassRemoveNoise.go (c : SubtitleType) (mp mn : Nat) :
    Nat → Nat → List FramePoint → List FramePoint
  | 0, _, fp => fp
  | n + 1, id, fp =>
      FPIRPassRemoveNoise.go c mp mn n (id + 1)
        (FPIRPassRemoveNoise.step c mp mn fp id)

/-- `FPIRPassRemoveNoise.apply` (lines 124-143). -/
def FPIRPassRemoveNoise.apply (c : SubtitleType) (mp mn : Nat)
    (fp : List FramePoint) : List FramePoint :=
  FPIRPassRemoveNoise.go c mp mn fp.length 0 fp

/-- `Interval` (MagiaTimeline.py, class Interval): begin/end timestamps and a
channel. -/
structure Interval where
  begin : Int
  «end» : Int
  type : SubtitleType
deriving DecidableEq, Repr

/-- `Interval.dist` (lines 176-182): let `l` be the operand with the smaller
begin (the receiver on ties) and `r` the other; the distance is
`r.begin - l.end`. -/
def Interval.dist (self other : Interval) : Int :=
  if self.begin > other.begin then self.begin - other.«end»
  else other.begin - self.«end»

/-- `Interval.intersects` (lines 184-185). -/
def Interval.intersects (self other : Interval) : Bool :=
  self.dist other < 0

/-- `Interval.touches` (lines 187-188). -/
def Interval.touches (self other : Interval) : Bool :=
  self.dist other == 0

/-- One step of the state machine of `FPIRPassBuildIntervals.apply`
(lines 153-161): off→on records the begin timestamp, on→off emits an
interval ending at the current timestamp. -/
def FPIRPassBuildIntervals.step (c : SubtitleType)
    (acc : List Interval × Int × Bool) (framePoint : FramePoint) :
    List Interval × Int × Bool :=
  let (intervals, lastBegin, state) := acc
  if !state then
    if framePoint.flag c then (intervals, framePoint.timestamp, true) else acc
  else
    if !(framePoint.flag c) then
      (intervals ++ [⟨lastBegin, framePoint.timestamp, c⟩], lastBegin, false)
    else acc

/-- `FPIRPassBuildIntervals.apply` (lines 149-162): run the state machine over
the frame points plus the virtual end point; `none` when the virtual end
point cannot be computed (empty sequence). -/
def FPIRPassBuildIntervals.apply (c : SubtitleType) (framePoints : List FramePoint) :
    Option (List Interval) :=
  (FPIR.getFramePointsWithVirtualEnd framePoints).map
    (fun l => (l.foldl (FPIRPassBuildIntervals.step c) ([], 0, false)).1)

/-- Stable insertion by `begin`: the element is placed before the first
element whose `begin` is not smaller. -/
def insertByBegin (a : Interval) : List Interval → List Interval
  | [] => [a]
  | b :: l => if a.begin ≤ b.begin then a :: b :: l else b :: insertByBegin a l

/-- `IIR.sort` (lines 202-203): Python's stable `list.sort(key=begin)`,
modelled as stable insertion sort by `begin`. -/
def IIR.sort (l : List Interval) : List Interval :=
  l.foldr insertByBegin []

/-- The `while otherId < len` scan of `IIRPassFillFlashBlank.apply`
(lines 226-239), for the interval at index `id`: skip other channels,
stop at `dist > maxBlank`, skip `dist <= 0`, otherwise set both facing
endpoints to the floor midpoint and stop. -/
def IIRPassFillFlashBlank.scan (c : SubtitleType) (maxBlank : Int)
    (l : List Interval) (id : Nat) : Nat → Nat → List Interval
  | 0, _ => l
  | fuel + 1, otherId =>
      match l[otherId]?, l[id]? with
      | some otherInterval, some interval =>
          if otherInterval.type ≠ c then
            IIRPassFillFlashBlank.scan c maxBlank l id fuel (otherId + 1)
          else if interval.dist otherInterval > maxBlank then l
          else if interval.dist otherInterval ≤ 0 then
            IIRPassFillFlashBlank.scan c maxBlank l id fuel (otherId + 1)
          else
            let mid := Int.fdiv (interval.«end» + otherInterval.begin) 2
            (l.set id { interval with «end» := mid }).set otherId
              { otherInterval with begin := mid }
      | _, _ => l

/-- One iteration of the outer `for id, interval` loop of
`IIRPassFillFlashBlank.apply` (lines 222-239). -/
def IIRPassFillFlashBlank.turn (c : SubtitleType) (maxBlank : Int)
    (l : List Interval) (id : Nat) : List Interval :=
  match l[id]? with
  | some interval =>
      if interval.type = c then
        IIRPassFillFlashBlank.scan c maxBlank l id l.length (id + 1)
      else l
  | none => l

/-- The outer loop of `IIRPassFillFlashBlank.apply`: `n` iterations starting
at index `id`, each reading the current (possibly already mutated) list. -/
def IIRPassFillFlashBlank.go (c : SubtitleType) (maxBlank : Int) :
    Nat → Nat → List Interval → List Interval
  | 0, _, l => l
  | n + 1, id, l =>
      IIRPassFillFlashBlank.go c maxBlank n (id + 1)
        (IIRPassFillFlashBlank.turn c maxBlank l id)

/-- `IIRPassFillFlashBlank.apply` (lines 221-240): the sweep followed by
`iir.sort()`. -/
def IIRPassFillFlashBlank.apply (c : SubtitleType) (maxBlank : Int)
    (l : List Interval) : List Interval :=
  IIR.sort (IIRPassFillFlashBlank.go c maxBlank l.length 0 l)

/-- The indices visited by the backward walk, in walk order:
`id - 1` down to `id - k` (as the claims state it). -/
def backWindow (id k : Nat) : List Nat :=
  (List.range k).map (fun j => id - 1 - j)

/-- The indices visited by the forward walk, in walk order:
`id + 1` up to `id + k` (as the claims state it). -/
def fwdWindow (id k : Nat) : List Nat :=
  (List.range k).map (fun j => id + 1 + j)

/-- The first index `j ≥ start` holding an interval of channel `c` at
positive distance from `A`: the scan of the gap-bridging pass can only act
there. -/
def IIRPassFillFlashBlank.findFirstGap (c : SubtitleType) (l : List Interval)
    (A : Interval) : Nat → Nat → Option Nat
  | 0, _ => none
  | fuel + 1, j =>
      match l[j]? with
      | none => none
      | some B =>
          if B.type = c ∧ 0 < A.dist B then some j
          else IIRPassFillFlashBlank.findFirstGap c l A fuel (j + 1)

/-- The scan of the gap-bridging pass, phrased as the claims phrase it: find
the first same-channel interval at positive distance; bridge at the floor
midpoint iff that distance is at most `maxBlank`. -/
def IIRPassFillFlashBlank.scanSpec (c : SubtitleType) (maxBlank : Int)
    (l : List Interval) (id : Nat) : List Interval :=
  match l[id]? with
  | none => l
  | some A =>
      match IIRPassFillFlashBlank.findFirstGap c l A l.length (id + 1) with
      | none => l
      | some j =>
          match l[j]? with
          | none => l
          | some B =>
              if A.dist B ≤ maxBlank then
                (l.set id { A with «end» := Int.fdiv (A.«end» + B.begin) 2 }).set j
                  { B with begin := Int.fdiv (A.«end» + B.begin) 2 }
              else l

/-- First index `j ≥ start` holding an interval of channel `c`. -/
def firstCFrom (c : SubtitleType) (l : List Interval) : Nat → Nat → Option Nat
  | 0, _ => none
  | fuel + 1, j =>
      match l[j]? with
      | none => none
      | some B => if B.type = c then some j else firstCFrom c l fuel (j + 1)

/-- Last index `q < p` holding an interval of channel `c`. -/
def lastCBefore (c : SubtitleType) (l : List Interval) : Nat → Option Nat
  | 0 => none
  | q + 1 =>
      match l[q]? with
      | none => lastCBefore c l q
      | some B => if B.type = c then some q else lastCBefore c l q

/-- When all same-channel gaps are strictly positive, the sweep bridges `p`
with its next same-channel index `j` iff their original distance lies in
`(0, maxBlank]`; `bridgeTarget` computes that `j` from the original list. -/
def bridgeTarget (c : SubtitleType) (maxBlank : Int) (l : List Interval)
    (p : Nat) : Option Nat :=
  match l[p]? with
  | none => none
  | some A =>
      if A.type = c then
        match firstCFrom c l l.length (p + 1) with
        | none => none
        | some j =>
            match l[j]? with
            | none => none
            | some B => if 0 < A.dist B ∧ A.dist B ≤ maxBlank then some j else none
      else none

/-- Floor midpoint of the gap between positions `p` and `j` of the original
list. -/
def midAt (l : List Interval) (p j : Nat) : Int :=
  match l[p]?, l[j]? with
  | some A, some B => Int.fdiv (A.«end» + B.begin) 2
  | _, _ => 0

/-- Value of position `p` after the first `k` turns of the sweep, on a
strictly gapped channel: the end is bridged once `p`'s own turn has run, the
begin is bridged once the turn of `p`'s same-channel predecessor has run. -/
def transformAt (c : SubtitleType) (maxBlank : Int) (l : List Interval)
    (k : Nat) (p : Nat) (I : Interval) : Interval :=
  let e := match bridgeTarget c maxBlank l p with
    | some j => if p < k then midAt l p j else I.«end»
    | none => I.«end»
  let b := match lastCBefore c l p with
    | some q =>
        match bridgeTarget c maxBlank l q with
        | some j => if j = p ∧ q < k then midAt l q p else I.begin
        | none => I.begin
    | none => I.begin
  ⟨b, e, I.type⟩

/-- Map with the position index, starting at `p`. -/
def mapIdxFrom (f : Nat → Interval → Interval) : Nat → List Interval → List Interval
  | _, [] => []
  | p, I :: rest => f p I :: mapIdxFrom f (p + 1) rest

/-- Closed form of the sweep state after `k` turns, on a strictly gapped
channel. -/
def stateAfter (c : SubtitleType) (maxBlank : Int) (l : List Interval)
    (k : Nat) : List Interval :=
  mapIdxFrom (transformAt c maxBlank l k) 0 l

/-- A frame point whose only possibly-true flag is the DIALOG channel. -/
def mkFP (i : Nat) (ts : Int) (v : Bool) : FramePoint :=
  ⟨i, ts, [v, false, false, false]⟩

/-- Scenario 1 input: DIALOG flags `[T,F,T,T,F]` over timestamps
`[0,100,200,300,400]`. -/
def scen1 : List FramePoint :=
  [mkFP 0 0 true, mkFP 1 100 false, mkFP 2 200 true, mkFP 3 300 true,
   mkFP 4 400 false]

/-- DIALOG flags `[F,F,T,T,T,F,F]` over timestamps `[0,...,600]`: a run of
three trues whose middle frame the noise-removal pass flips while its
boundary-exempt right neighbour keeps the old value. -/
def noise7 : List FramePoint :=
  [mkFP 0 0 false, mkFP 1 100 false, mkFP 2 200 true, mkFP 3 300 true,
   mkFP 4 400 true, mkFP 5 500 false, mkFP 6 600 false]

/-- Scenario 2 input: one channel's intervals `[0,100)` and `[150,250)`. -/
def scen2In : List Interval := [⟨0, 100, .DIALOG⟩, ⟨150, 250, .DIALOG⟩]

/-- Scenario 3 input: the same pair at distance 150. -/
def scen3In : List Interval := [⟨0, 100, .DIALOG⟩, ⟨250, 350, .DIALOG⟩]

/-- A touching pair followed by a bridgeable gap: sorted, overlap-free input
on which the gap-bridging pass creates an overlap. -/
def touch3In : List Interval :=
  [⟨0, 10, .DIALOG⟩, ⟨10, 12, .DIALOG⟩, ⟨20, 30, .DIALOG⟩]

/-- C7: interval extraction on an FPIR with zero frame points fails when the
virtual end point is computed — `genVirtualEnd` produces no frame point, so
the extended view and the build pass produce no intervals for any channel. -/
theorem genVirtualEnd_empty_fails :
    FPIR.genVirtualEnd [] = none ∧
    FPIR.getFramePointsWithVirtualEnd [] = none ∧
    ∀ c, FPIRPassBuildIntervals.apply c [] = none :=
  ⟨rfl, rfl, fun _ => rfl⟩

/-- C8: constructing a FramePoint fails exactly when the flags list's length
differs from the channel count `SubtitleType.num = 4`; on success the given
index, timestamp and flags are stored unchanged. -/
theorem framePoint_init_length_check :
    SubtitleType.num = 4 ∧
    (∀ (i : Nat) (t : Int) (fl : List Bool),
      (FramePoint.init i t fl).isSome ↔ fl.length = SubtitleType.num) ∧
    (∀ (i : Nat) (t : Int) (fl : List Bool) (fp : FramePoint),
      FramePoint.init i t fl = some fp →
        fp.index = i ∧ fp.timestamp = t ∧ fp.flags = fl) := by
  refine ⟨rfl, fun i t fl => ?_, fun i t fl fp h => ?_⟩
  · unfold FramePoint.init
    split <;> simp_all
  · unfold FramePoint.init at h
    split at h
    · cases h
    · cases h; exact ⟨rfl, rfl, rfl⟩

/-- Witness for C8 at a concrete input: a length-4 flags list is accepted and
stored unchanged. -/
theorem framePoint_init_length_check_witness :
    (FramePoint.mk 7 100 [true, false, true, false]).index = 7 ∧
    (FramePoint.mk 7 100 [true, false, true, false]).timestamp = 100 ∧
    (FramePoint.mk 7 100 [true, false, true, false]).flags =
      [true, false, true, false] :=
  framePoint_init_length_check.2.2 7 100 [true, false, true, false] _ rfl

/-- C9 counterexample: when two intervals share a begin but differ in end,
`dist` is not symmetric — here `dist ⟨0,5⟩ ⟨0,10⟩ = -5` while
`dist ⟨0,10⟩ ⟨0,5⟩ = -10`. -/
theorem dist_asymmetric_cex :
    Interval.dist ⟨0, 5, .DIALOG⟩ ⟨0, 10, .DIALOG⟩ ≠
      Interval.dist ⟨0, 10, .DIALOG⟩ ⟨0, 5, .DIALOG⟩ := by decide

/-- C9 amended: `dist(A,B) = R.begin - L.end` with `L` the operand of smaller
begin and, on a tie, the receiver; hence `dist` is symmetric whenever the
begins differ (ties with differing ends break symmetry); `intersects` holds
exactly when `dist < 0` and `touches` exactly when `dist = 0`. -/
theorem dist_characterization :
    (∀ A B : Interval, ¬ A.begin > B.begin → A.dist B = B.begin - A.«end») ∧
    (∀ A B : Interval, A.begin > B.begin → A.dist B = A.begin - B.«end») ∧
    (∀ A B : Interval, A.begin ≠ B.begin → A.dist B = B.dist A) ∧
    (∀ A B : Interval, A.intersects B = true ↔ A.dist B < 0) ∧
    (∀ A B : Interval, A.touches B = true ↔ A.dist B = 0) := by
  refine ⟨fun A B h => ?_, fun A B h => ?_, fun A B h => ?_, fun A B => ?_,
    fun A B => ?_⟩
  · rw [Interval.dist, if_neg h]
  · rw [Interval.dist, if_pos h]
  · unfold Interval.dist
    rcases lt_trichotomy A.begin B.begin with hlt | heq | hgt
    · rw [if_neg (by omega), if_pos (by omega)]
    · exact absurd heq h
    · rw [if_pos (by omega), if_neg (by omega)]
  · simp [Interval.intersects]
  · simp [Interval.touches]

/-- Witness for C9 amended at concrete inputs with distinct begins. -/
theorem dist_characterization_witness :
    Interval.dist ⟨0, 5, .DIALOG⟩ ⟨3, 7, .DIALOG⟩ =
      Interval.dist ⟨3, 7, .DIALOG⟩ ⟨0, 5, .DIALOG⟩ :=
  dist_characterization.2.2.1 _ _ (by decide)

/-- C3 counterexample: noise removal is not idempotent — on DIALOG flags
`[F,F,T,T,T,F,F]` with `minPositiveLength = 3`, `minNegativeLength = 1` the
first run flips index 3 to `F` (indices 2 and 4 are boundary-exempt), and the
second run flips index 3 back to `T`. -/
theorem removeNoise_not_idempotent_cex :
    FPIRPassRemoveNoise.apply .DIALOG 3 1
        (FPIRPassRemoveNoise.apply .DIALOG 3 1 noise7) ≠
      FPIRPassRemoveNoise.apply .DIALOG 3 1 noise7 := by decide

/-- C3 amended: re-running noise removal with identical parameters is not
idempotent in general (a frame the first run flipped can be flipped back when
its equal-flag neighbour was boundary-exempt); it is idempotent on Scenario
1's input `[T,F,T,T,F]` with `minPositiveLength = minNegativeLength = 1`. -/
theorem removeNoise_idempotent_scen1 :
    FPIRPassRemoveNoise.apply .DIALOG 1 1
        (FPIRPassRemoveNoise.apply .DIALOG 1 1 scen1) =
      FPIRPassRemoveNoise.apply .DIALOG 1 1 scen1 := by decide

theorem removeNoise_go_eq_foldl (c : SubtitleType) (mp mn : Nat) :
    ∀ (n id : Nat) (fp : List FramePoint),
      FPIRPassRemoveNoise.go c mp mn n id fp =
        (List.range' id n).foldl (FPIRPassRemoveNoise.step c mp mn) fp := by
  intro n
  induction n with
  | zero => intro id fp; rfl
  | succ n ih =>
      intro id fp
      rw [FPIRPassRemoveNoise.go, List.range', List.foldl_cons, ih]

theorem removeNoise_apply_eq_foldl (c : SubtitleType) (mp mn : Nat)
    (fp : List FramePoint) :
    FPIRPassRemoveNoise.apply c mp mn fp =
      (List.range fp.length).foldl (FPIRPassRemoveNoise.step c mp mn) fp := by
  rw [FPIRPassRemoveNoise.apply, removeNoise_go_eq_foldl, List.range_eq_range']

theorem backWindow_succ (id k : Nat) :
    backWindow id (k + 1) = (id - 1) :: backWindow (id - 1) k := by
  unfold backWindow
  rw [List.range_succ_eq_map, List.map_cons, List.map_map]
  refine congrArg _ (List.map_congr_left fun j _ => ?_)
  simp only [Function.comp_apply]
  omega

theorem fwdWindow_succ (id k : Nat) :
    fwdWindow id (k + 1) = (id + 1) :: fwdWindow (id + 1) k := by
  unfold fwdWindow
  rw [List.range_succ_eq_map, List.map_cons, List.map_map]
  refine congrArg _ (List.map_congr_left fun j _ => ?_)
  simp only [Function.comp_apply]
  omega

theorem countBack_eq_takeWhile (fp : List FramePoint) (c : SubtitleType)
    (v : Bool) : ∀ (k id : Nat),
    FPIRPassRemoveNoise.countBack fp c v id k =
      ((backWindow id k).takeWhile (fun i => flagAt fp c i == v)).length := by
  intro k
  induction k with
  | zero => intro id; rfl
  | succ k ih =>
      intro id
      rw [backWindow_succ, List.takeWhile_cons]
      by_cases h : flagAt fp c (id - 1) = v
      · simp [FPIRPassRemoveNoise.countBack, h, ih, Nat.add_comm]
      · simp [FPIRPassRemoveNoise.countBack, h]

theorem countFwd_eq_takeWhile (fp : List FramePoint) (c : SubtitleType)
    (v : Bool) : ∀ (k id : Nat),
    FPIRPassRemoveNoise.countFwd fp c v id k =
      ((fwdWindow id k).takeWhile (fun i => flagAt fp c i == v)).length := by
  intro k
  induction k with
  | zero => intro id; rfl
  | succ k ih =>
      intro id
      rw [fwdWindow_succ, List.takeWhile_cons]
      by_cases h : flagAt fp c (id + 1) = v
      · simp [FPIRPassRemoveNoise.countFwd, h, ih, Nat.add_comm]
      · simp [FPIRPassRemoveNoise.countFwd, h]

/-- C1: the noise-removal pass is the left-to-right fold of its per-index
step over increasing indices (later indices thus read already-flipped
values); the backward walk counts matching flags along `i-1 ... i-minLength`
and the forward walk along `i+1 ... i+minLength`, each stopping at the first
differing flag; and on Scenario 1's flags `[T,F,T,T,F]` with
`minPositiveLength = minNegativeLength = 1` the output is `[T,T,T,T,F]`
(index 1 flips, index 4 is a skipped boundary frame). -/
theorem removeNoise_spec :
    (∀ (c : SubtitleType) (mp mn : Nat) (fp : List FramePoint),
      FPIRPassRemoveNoise.apply c mp mn fp =
        (List.range fp.length).foldl (FPIRPassRemoveNoise.step c mp mn) fp) ∧
    (∀ (fp : List FramePoint) (c : SubtitleType) (v : Bool) (k id : Nat),
      FPIRPassRemoveNoise.countBack fp c v id k =
        ((backWindow id k).takeWhile (fun i => flagAt fp c i == v)).length) ∧
    (∀ (fp : List FramePoint) (c : SubtitleType) (v : Bool) (k id : Nat),
      FPIRPassRemoveNoise.countFwd fp c v id k =
        ((fwdWindow id k).takeWhile (fun i => flagAt fp c i == v)).length) ∧
    (FPIRPassRemoveNoise.apply .DIALOG 1 1 scen1).map (·.flag .DIALOG) =
      [true, true, true, true, false] :=
  ⟨removeNoise_apply_eq_foldl, countBack_eq_takeWhile, countFwd_eq_takeWhile,
    by decide⟩

theorem removeNoise_step_getElem?_ne (c : SubtitleType) (mp mn : Nat)
    (fp : List FramePoint) (id j : Nat) (h : j ≠ id) :
    (FPIRPassRemoveNoise.step c mp mn fp id)[j]? = fp[j]? := by
  unfold FPIRPassRemoveNoise.step
  cases fp[id]? with
  | none => rfl
  | some f =>
      simp only
      split_ifs <;>
        first
          | rfl
          | exact List.getElem?_set_ne (fun he => h he.symm)

theorem removeNoise_step_length (c : SubtitleType) (mp mn : Nat)
    (fp : List FramePoint) (id : Nat) :
    (FPIRPassRemoveNoise.step c mp mn fp id).length = fp.length := by
  unfold FPIRPassRemoveNoise.step
  cases fp[id]? with
  | none => rfl
  | some f =>
      simp only
      split_ifs <;>
        first
          | rfl
          | exact List.length_set ..

theorem removeNoise_go_getElem?_lt (c : SubtitleType) (mp mn : Nat) :
    ∀ (n id : Nat) (fp : List FramePoint) (j : Nat), j < id →
      (FPIRPassRemoveNoise.go c mp mn n id fp)[j]? = fp[j]? := by
  intro n
  induction n with
  | zero => intro id fp j _; rfl
  | succ n ih =>
      intro id fp j hj
      rw [FPIRPassRemoveNoise.go, ih (id + 1) _ j (Nat.lt_succ_of_lt hj),
        removeNoise_step_getElem?_ne c mp mn fp id j (Nat.ne_of_lt hj)]

theorem removeNoise_step_skip (c : SubtitleType) (mp mn : Nat)
    (fp : List FramePoint) (i : Nat)
    (h : if flagAt fp c i then i < mp ∨ fp.length ≤ i + mp
         else i < mn ∨ fp.length ≤ i + mn) :
    FPIRPassRemoveNoise.step c mp mn fp i = fp := by
  unfold FPIRPassRemoveNoise.step
  cases hi : fp[i]? with
  | none => rfl
  | some f =>
      have hv : flagAt fp c i = f.flag c := by simp [flagAt, hi]
      simp only
      rw [if_pos]
      rw [hv] at h
      cases hf : f.flag c <;> rw [hf] at h <;> simp_all

theorem removeNoise_go_boundary (c : SubtitleType) (mp mn : Nat) :
    ∀ (n id : Nat) (fp : List FramePoint) (i : Nat), id ≤ i →
      (if flagAt fp c i then i < mp ∨ fp.length ≤ i + mp
       else i < mn ∨ fp.length ≤ i + mn) →
      (FPIRPassRemoveNoise.go c mp mn n id fp)[i]? = fp[i]? := by
  intro n
  induction n with
  | zero => intro id fp i _ _; rfl
  | succ n ih =>
      intro id fp i hle h
      rw [FPIRPassRemoveNoise.go]
      rcases Nat.eq_or_lt_of_le hle with heq | hlt
      · subst heq
        rw [removeNoise_step_skip c mp mn fp id h]
        exact removeNoise_go_getElem?_lt c mp mn n (id + 1) fp id (Nat.lt_succ_self id)
      · have hfl : flagAt (FPIRPassRemoveNoise.step c mp mn fp id) c i = flagAt fp c i := by
          simp [flagAt, removeNoise_step_getElem?_ne c mp mn fp id i (Nat.ne_of_gt hlt)]
        have hlen : (FPIRPassRemoveNoise.step c mp mn fp id).length = fp.length :=
          removeNoise_step_length ..
        rw [ih (id + 1) _ i hlt (by rw [hfl, hlen]; exact h),
          removeNoise_step_getElem?_ne c mp mn fp id i (Nat.ne_of_gt hlt)]

/-- C6: no frame within the applicable `minLength` of either sequence edge
(`minLength` chosen by the frame's flag: `minPositiveLength` when true,
`minNegativeLength` when false) is ever altered by the noise-removal pass. -/
theorem removeNoise_boundary_exempt (c : SubtitleType) (mp mn : Nat)
    (fp : List FramePoint) (i : Nat)
    (h : if flagAt fp c i then i < mp ∨ fp.length ≤ i + mp
         else i < mn ∨ fp.length ≤ i + mn) :
    (FPIRPassRemoveNoise.apply c mp mn fp)[i]? = fp[i]? :=
  removeNoise_go_boundary c mp mn fp.length 0 fp i (Nat.zero_le i) h

/-- Witness for C6: index 4 of Scenario 1 is within `minLength` of the tail
and keeps its frame unchanged. -/
theorem removeNoise_boundary_exempt_witness :
    (if flagAt scen1 .DIALOG 4 then 4 < 1 ∨ scen1.length ≤ 4 + 1
     else 4 < 1 ∨ scen1.length ≤ 4 + 1) ∧
    (FPIRPassRemoveNoise.apply .DIALOG 1 1 scen1)[4]? = scen1[4]? :=
  ⟨by decide, removeNoise_boundary_exempt .DIALOG 1 1 scen1 4 (by decide)⟩

theorem build_step_state (c : SubtitleType) (acc : List Interval × Int × Bool)
    (x : FramePoint) : (FPIRPassBuildIntervals.step c acc x).2.2 = x.flag c := by
  rcases acc with ⟨ints, lb, st⟩
  cases st <;> cases hf : x.flag c <;>
    simp [FPIRPassBuildIntervals.step, hf]

theorem build_foldl_state (c : SubtitleType) :
    ∀ (l : List FramePoint) (acc : List Interval × Int × Bool)
      (lastF : FramePoint), l.getLast? = some lastF →
      (l.foldl (FPIRPassBuildIntervals.step c) acc).2.2 = lastF.flag c := by
  intro l
  induction l with
  | nil => intro acc lastF h; cases h
  | cons x xs ih =>
      intro acc lastF h
      cases xs with
      | nil =>
          cases h
          exact build_step_state ..
      | cons y ys =>
          rw [List.getLast?_cons_cons] at h
          exact ih _ _ h

theorem virtualEnd_flag_false (n : Nat) (ts : Int) (c : SubtitleType) :
    (FramePoint.mk n ts (List.replicate SubtitleType.num false)).flag c = false := by
  cases c <;> rfl

/-- C5: for a non-empty frame sequence the virtual end point has index equal
to the sequence length, the last real frame's timestamp, and all-false flags;
it is only appended to a copy of the sequence, never stored; and a run whose
flag is still true at the last real frame closes at exactly that frame's
timestamp. -/
theorem virtualEnd_spec (fp : List FramePoint) (lastFp : FramePoint)
    (h : fp.getLast? = some lastFp) (c : SubtitleType) :
    FPIR.genVirtualEnd fp =
      some ⟨fp.length, lastFp.timestamp, List.replicate SubtitleType.num false⟩ ∧
    FPIR.getFramePointsWithVirtualEnd fp =
      some (fp ++ [⟨fp.length, lastFp.timestamp, List.replicate SubtitleType.num false⟩]) ∧
    (lastFp.flag c = true →
      ∃ out, FPIRPassBuildIntervals.apply c fp = some out ∧
        ∃ I, out.getLast? = some I ∧ I.«end» = lastFp.timestamp) := by
  have hve : FPIR.genVirtualEnd fp =
      some ⟨fp.length, lastFp.timestamp, List.replicate SubtitleType.num false⟩ := by
    rw [FPIR.genVirtualEnd, h]
  refine ⟨hve, ?_, ?_⟩
  · rw [FPIR.getFramePointsWithVirtualEnd, hve, Option.map_some']
  · intro hflag
    set ve : FramePoint :=
      ⟨fp.length, lastFp.timestamp, List.replicate SubtitleType.num false⟩ with hve'
    refine ⟨((fp ++ [ve]).foldl (FPIRPassBuildIntervals.step c) ([], 0, false)).1, ?_, ?_⟩
    · rw [FPIRPassBuildIntervals.apply, FPIR.getFramePointsWithVirtualEnd, hve]
      rfl
    · rw [List.foldl_append]
      set st := fp.foldl (FPIRPassBuildIntervals.step c) ([], 0, false) with hst
      have hstate : st.2.2 = true := by
        rw [hst, build_foldl_state c fp _ lastFp h, hflag]
      have hveflag : ve.flag c = false := virtualEnd_flag_false ..
      rcases hst2 : st with ⟨ints, lb, s⟩
      rw [hst2] at hstate
      simp only at hstate
      subst hstate
      refine ⟨⟨lb, ve.timestamp, c⟩, ?_, rfl⟩
      simp [FPIRPassBuildIntervals.step, hveflag, List.getLast?_concat]

/-- Witness for C5 on Scenario 1's frame list: the last frame has a false
DIALOG flag, but the BLACKSCREEN channel (all false) also instantiates the
virtual-end clauses; use a list whose last DIALOG flag is true instead. -/
theorem virtualEnd_spec_witness :
    FPIR.genVirtualEnd [mkFP 0 0 true, mkFP 1 100 true] =
      some ⟨2, 100, List.replicate SubtitleType.num false⟩ ∧
    FPIR.getFramePointsWithVirtualEnd [mkFP 0 0 true, mkFP 1 100 true] =
      some ([mkFP 0 0 true, mkFP 1 100 true] ++
        [⟨2, 100, List.replicate SubtitleType.num false⟩]) ∧
    ((mkFP 1 100 true).flag .DIALOG = true →
      ∃ out, FPIRPassBuildIntervals.apply .DIALOG [mkFP 0 0 true, mkFP 1 100 true] =
          some out ∧
        ∃ I, out.getLast? = some I ∧ I.«end» = (mkFP 1 100 true).timestamp) :=
  virtualEnd_spec [mkFP 0 0 true, mkFP 1 100 true] (mkFP 1 100 true) (by decide) .DIALOG

theorem build_foldl_okEnds (c : SubtitleType) :
    ∀ (l : List FramePoint) (acc : List Interval × Int × Bool),
      List.Pairwise (fun a b : FramePoint => a.timestamp ≤ b.timestamp) l →
      (∀ I ∈ acc.1, I.begin ≤ I.«end») →
      (acc.2.2 = true → ∀ x ∈ l, acc.2.1 ≤ x.timestamp) →
      ∀ I ∈ (l.foldl (FPIRPassBuildIntervals.step c) acc).1, I.begin ≤ I.«end» := by
  intro l
  induction l with
  | nil => intro acc _ hok _; exact hok
  | cons x xs ih =>
      intro acc hpw hok hst
      rw [List.pairwise_cons] at hpw
      rw [List.foldl_cons]
      rcases acc with ⟨ints, lb, s⟩
      cases s with
      | false =>
          cases hf : x.flag c with
          | false =>
              have hstep : FPIRPassBuildIntervals.step c (ints, lb, false) x =
                  (ints, lb, false) := by
                simp [FPIRPassBuildIntervals.step, hf]
              rw [hstep]
              exact ih _ hpw.2 hok (fun h' => by cases h')
          | true =>
              have hstep : FPIRPassBuildIntervals.step c (ints, lb, false) x =
                  (ints, x.timestamp, true) := by
                simp [FPIRPassBuildIntervals.step, hf]
              rw [hstep]
              exact ih _ hpw.2 hok (fun _ y hy => hpw.1 y hy)
      | true =>
          cases hf : x.flag c with
          | false =>
              have hstep : FPIRPassBuildIntervals.step c (ints, lb, true) x =
                  (ints ++ [⟨lb, x.timestamp, c⟩], lb, false) := by
                simp [FPIRPassBuildIntervals.step, hf]
              rw [hstep]
              refine ih _ hpw.2 ?_ (fun h' => by cases h')
              intro I hI
              rcases List.mem_append.mp hI with h1 | h2
              · exact hok I h1
              · rcases List.mem_singleton.mp h2 with rfl
                exact hst rfl x (List.mem_cons_self ..)
          | true =>
              have hstep : FPIRPassBuildIntervals.step c (ints, lb, true) x =
                  (ints, lb, true) := by
                simp [FPIRPassBuildIntervals.step, hf]
              rw [hstep]
              exact ih _ hpw.2 hok
                (fun _ y hy => hst rfl y (List.mem_cons_of_mem _ hy))

theorem pairwise_timestamp_le_getLast :
    ∀ (l : List FramePoint) (lastF : FramePoint),
      List.Pairwise (fun a b : FramePoint => a.timestamp ≤ b.timestamp) l →
      l.getLast? = some lastF → ∀ a ∈ l, a.timestamp ≤ lastF.timestamp := by
  intro l
  induction l with
  | nil => intro lastF _ h; cases h
  | cons x xs ih =>
      intro lastF hpw h a ha
      rw [List.pairwise_cons] at hpw
      cases xs with
      | nil =>
          cases h
          rcases List.mem_singleton.mp ha with rfl
          exact le_refl _
      | cons y ys =>
          rw [List.getLast?_cons_cons] at h
          rcases List.mem_cons.mp ha with rfl | ha'
          · exact hpw.1 lastF (List.mem_of_getLast?_eq_some h)
          · exact ih lastF hpw.2 h a ha'

/-- The interval-build pass emits only intervals with `begin ≤ end`, given
non-decreasing producer timestamps (the build half of C10). -/
theorem build_okEnds (c : SubtitleType) (fp : List FramePoint)
    (out : List Interval)
    (hpw : List.Pairwise (fun a b : FramePoint => a.timestamp ≤ b.timestamp) fp)
    (h : FPIRPassBuildIntervals.apply c fp = some out) :
    ∀ I ∈ out, I.begin ≤ I.«end» := by
  rw [FPIRPassBuildIntervals.apply] at h
  rcases hlast : fp.getLast? with _ | ⟨lastFp⟩
  · rw [FPIR.getFramePointsWithVirtualEnd, FPIR.genVirtualEnd, hlast] at h
    cases h
  · rw [FPIR.getFramePointsWithVirtualEnd, FPIR.genVirtualEnd, hlast] at h
    simp only [Option.map_some'] at h
    cases h
    set ve : FramePoint :=
      ⟨fp.length, lastFp.timestamp, List.replicate SubtitleType.num false⟩ with hve
    have hpw' : List.Pairwise (fun a b : FramePoint => a.timestamp ≤ b.timestamp)
        (fp ++ [ve]) := by
      rw [List.pairwise_append]
      refine ⟨hpw, List.pairwise_singleton .., fun a ha b hb => ?_⟩
      rcases List.mem_singleton.mp hb with rfl
      exact pairwise_timestamp_le_getLast fp lastFp hpw hlast a ha
    exact build_foldl_okEnds c (fp ++ [ve]) ([], 0, false) hpw'
      (by intro I hI; cases hI) (by intro h'; cases h')

theorem findFirstGap_found (c : SubtitleType) (l : List Interval) (A : Interval) :
    ∀ (fuel start j : Nat),
      IIRPassFillFlashBlank.findFirstGap c l A fuel start = some j →
      start ≤ j ∧ ∃ B, l[j]? = some B ∧ B.type = c ∧ 0 < A.dist B := by
  intro fuel
  induction fuel with
  | zero => intro start j h; cases h
  | succ fuel ih =>
      intro start j h
      rw [IIRPassFillFlashBlank.findFirstGap] at h
      cases hB : l[start]? with
      | none => simp only [hB] at h; cases h
      | some B =>
          simp only [hB] at h
          by_cases hc : B.type = c ∧ 0 < A.dist B
          · rw [if_pos hc] at h
            cases h
            exact ⟨le_refl _, B, hB, hc.1, hc.2⟩
          · rw [if_neg hc] at h
            obtain ⟨h1, h2⟩ := ih (start + 1) j h
            exact ⟨Nat.le_of_succ_le h1, h2⟩

theorem findFirstGap_between (c : SubtitleType) (l : List Interval) (A : Interval) :
    ∀ (fuel start j : Nat),
      IIRPassFillFlashBlank.findFirstGap c l A fuel start = some j →
      ∀ m, start ≤ m → m < j → ∀ X, l[m]? = some X →
        ¬(X.type = c ∧ 0 < A.dist X) := by
  intro fuel
  induction fuel with
  | zero => intro start j h; cases h
  | succ fuel ih =>
      intro start j h m hm1 hm2 X hX
      rw [IIRPassFillFlashBlank.findFirstGap] at h
      cases hB : l[start]? with
      | none => simp only [hB] at h; cases h
      | some B =>
          simp only [hB] at h
          by_cases hc : B.type = c ∧ 0 < A.dist B
          · rw [if_pos hc] at h
            cases h
            omega
          · rw [if_neg hc] at h
            rcases Nat.eq_or_lt_of_le hm1 with rfl | hlt
            · rw [hB] at hX; cases hX; exact hc
            · exact ih (start + 1) j h m hlt hm2 X hX

theorem findFirstGap_none (c : SubtitleType) (l : List Interval) (A : Interval) :
    ∀ (fuel start : Nat),
      IIRPassFillFlashBlank.findFirstGap c l A fuel start = none →
      ∀ m, start ≤ m → m < start + fuel → ∀ X, l[m]? = some X →
        ¬(X.type = c ∧ 0 < A.dist X) := by
  intro fuel
  induction fuel with
  | zero => intro start _ m hm1 hm2; omega
  | succ fuel ih =>
      intro start h m hm1 hm2 X hX
      rw [IIRPassFillFlashBlank.findFirstGap] at h
      cases hB : l[start]? with
      | none =>
          rcases Nat.eq_or_lt_of_le hm1 with rfl | hlt
          · rw [hB] at hX; cases hX
          · -- positions past an out-of-range one are out of range too
            have : l.length ≤ start := by
              by_contra hcon
              rw [List.getElem?_eq_getElem (by omega)] at hB
              cases hB
            rw [List.getElem?_eq_none (by omega)] at hX
            cases hX
      | some B =>
          simp only [hB] at h
          by_cases hc : B.type = c ∧ 0 < A.dist B
          · rw [if_pos hc] at h; cases h
          · rw [if_neg hc] at h
            rcases Nat.eq_or_lt_of_le hm1 with rfl | hlt
            · rw [hB] at hX; cases hX; exact hc
            · exact ih (start + 1) h m hlt (by omega) X hX

/-- Outcome of `scanSpec`'s decision once the first positive-distance
same-channel index is known. -/
theorem scan_eq_aux (c : SubtitleType) (maxBlank : Int) (l : List Interval)
    (id : Nat) (A : Interval) (hA : l[id]? = some A) :
    ∀ (fuel start : Nat),
      IIRPassFillFlashBlank.scan c maxBlank l id fuel start =
        (match IIRPassFillFlashBlank.findFirstGap c l A fuel start with
          | none => l
          | some j =>
              match l[j]? with
              | none => l
              | some B =>
                  if A.dist B ≤ maxBlank then
                    (l.set id { A with «end» := Int.fdiv (A.«end» + B.begin) 2 }).set j
                      { B with begin := Int.fdiv (A.«end» + B.begin) 2 }
                  else l) := by
  intro fuel
  induction fuel with
  | zero => intro start; rfl
  | succ fuel ih =>
      intro start
      cases hB : l[start]? with
      | none =>
          have hf : IIRPassFillFlashBlank.findFirstGap c l A (fuel + 1) start = none := by
            rw [IIRPassFillFlashBlank.findFirstGap, hB]
          rw [hf, IIRPassFillFlashBlank.scan, hB]
      | some B =>
          by_cases htype : B.type = c
          · by_cases hgap : A.dist B > maxBlank
            · by_cases hpos : 0 < A.dist B
              · have hf : IIRPassFillFlashBlank.findFirstGap c l A (fuel + 1) start =
                    some start := by
                  rw [IIRPassFillFlashBlank.findFirstGap, hB]
                  simp only
                  rw [if_pos ⟨htype, hpos⟩]
                have hs : IIRPassFillFlashBlank.scan c maxBlank l id (fuel + 1) start = l := by
                  rw [IIRPassFillFlashBlank.scan, hB, hA]
                  simp only
                  rw [if_neg (fun h => h htype), if_pos hgap]
                rw [hs]
                simp only [hf, hB]
                rw [if_neg (by omega)]
              · -- maxBlank < dist ≤ 0: the scan stops here; the found index
                -- further on (if any) has positive distance exceeding the
                -- negative maxBlank, so neither side bridges
                have hf : IIRPassFillFlashBlank.findFirstGap c l A (fuel + 1) start =
                    IIRPassFillFlashBlank.findFirstGap c l A fuel (start + 1) := by
                  rw [IIRPassFillFlashBlank.findFirstGap, hB]
                  simp only
                  rw [if_neg (by tauto)]
                have hs : IIRPassFillFlashBlank.scan c maxBlank l id (fuel + 1) start = l := by
                  rw [IIRPassFillFlashBlank.scan, hB, hA]
                  simp only
                  rw [if_neg (fun h => h htype), if_pos hgap]
                rw [hs, hf]
                cases hff : IIRPassFillFlashBlank.findFirstGap c l A fuel (start + 1) with
                | none => rfl
                | some j =>
                    obtain ⟨-, B2, hB2, -, hd⟩ :=
                      findFirstGap_found c l A fuel (start + 1) j hff
                    simp only [hB2]
                    rw [if_neg (by omega)]
            · by_cases hpos : 0 < A.dist B
              · have hf : IIRPassFillFlashBlank.findFirstGap c l A (fuel + 1) start =
                    some start := by
                  rw [IIRPassFillFlashBlank.findFirstGap, hB]
                  simp only
                  rw [if_pos ⟨htype, hpos⟩]
                have hs : IIRPassFillFlashBlank.scan c maxBlank l id (fuel + 1) start =
                    (l.set id { A with «end» := Int.fdiv (A.«end» + B.begin) 2 }).set start
                      { B with begin := Int.fdiv (A.«end» + B.begin) 2 } := by
                  rw [IIRPassFillFlashBlank.scan, hB, hA]
                  simp only
                  rw [if_neg (fun h => h htype), if_neg hgap, if_neg (by omega)]
                rw [hs]
                simp only [hf, hB]
                rw [if_pos (by omega)]
              · have hf : IIRPassFillFlashBlank.findFirstGap c l A (fuel + 1) start =
                    IIRPassFillFlashBlank.findFirstGap c l A fuel (start + 1) := by
                  rw [IIRPassFillFlashBlank.findFirstGap, hB]
                  simp only
                  rw [if_neg (by tauto)]
                have hs : IIRPassFillFlashBlank.scan c maxBlank l id (fuel + 1) start =
                    IIRPassFillFlashBlank.scan c maxBlank l id fuel (start + 1) := by
                  rw [IIRPassFillFlashBlank.scan, hB, hA]
                  simp only
                  rw [if_neg (fun h => h htype), if_neg hgap, if_pos (by omega)]
                rw [hs, hf, ih]
          · have hf : IIRPassFillFlashBlank.findFirstGap c l A (fuel + 1) start =
                IIRPassFillFlashBlank.findFirstGap c l A fuel (start + 1) := by
              rw [IIRPassFillFlashBlank.findFirstGap, hB]
              simp only
              rw [if_neg (by tauto)]
            have hs : IIRPassFillFlashBlank.scan c maxBlank l id (fuel + 1) start =
                IIRPassFillFlashBlank.scan c maxBlank l id fuel (start + 1) := by
              rw [IIRPassFillFlashBlank.scan, hB, hA]
              simp only
              rw [if_pos htype]
            rw [hs, hf, ih]

/-- The code's scan equals the claim-worded scan for channel-`c` intervals. -/
theorem turn_eq_scanSpec (c : SubtitleType) (maxBlank : Int) (l : List Interval)
    (id : Nat) (A : Interval) (hA : l[id]? = some A) (htype : A.type = c) :
    IIRPassFillFlashBlank.turn c maxBlank l id =
      IIRPassFillFlashBlank.scanSpec c maxBlank l id := by
  rw [IIRPassFillFlashBlank.turn, IIRPassFillFlashBlank.scanSpec, hA]
  simp only [if_pos htype]
  exact scan_eq_aux c maxBlank l id A hA l.length (id + 1)

theorem turn_skip_other (c : SubtitleType) (maxBlank : Int) (l : List Interval)
    (id : Nat) (A : Interval) (hA : l[id]? = some A) (htype : A.type ≠ c) :
    IIRPassFillFlashBlank.turn c maxBlank l id = l := by
  rw [IIRPassFillFlashBlank.turn, hA]
  simp only [if_neg htype]

theorem fill_go_eq_foldl (c : SubtitleType) (maxBlank : Int) :
    ∀ (n id : Nat) (l : List Interval),
      IIRPassFillFlashBlank.go c maxBlank n id l =
        (List.range' id n).foldl (IIRPassFillFlashBlank.turn c maxBlank) l := by
  intro n
  induction n with
  | zero => intro id l; rfl
  | succ n ih =>
      intro id l
      rw [IIRPassFillFlashBlank.go, List.range', List.foldl_cons, ih]

/-- C2: the gap-bridging sweep processes intervals left to right (the fold of
its per-index turn over `range length`), a turn on another channel's interval
does nothing, a turn on a channel-`c` interval bridges at the floor midpoint
with the first later same-channel interval at positive distance iff that
distance is at most `maxGap` (skipping other channels and `dist ≤ 0`
same-channel intervals, stopping at `dist > maxGap`), and the whole
collection is re-sorted by begin afterwards; on `[0,100)`/`[150,250)` with
`maxGap = 100` the result is `[0,125)`/`[125,250)`, and at distance 150 the
pair is unchanged. -/
theorem fillFlashBlank_spec :
    (∀ (c : SubtitleType) (maxBlank : Int) (l : List Interval),
      IIRPassFillFlashBlank.apply c maxBlank l =
        IIR.sort ((List.range l.length).foldl (IIRPassFillFlashBlank.turn c maxBlank) l)) ∧
    (∀ (c : SubtitleType) (maxBlank : Int) (l : List Interval) (id : Nat)
        (A : Interval), l[id]? = some A → A.type ≠ c →
      IIRPassFillFlashBlank.turn c maxBlank l id = l) ∧
    (∀ (c : SubtitleType) (maxBlank : Int) (l : List Interval) (id : Nat)
        (A : Interval), l[id]? = some A → A.type = c →
      IIRPassFillFlashBlank.turn c maxBlank l id =
        IIRPassFillFlashBlank.scanSpec c maxBlank l id) ∧
    IIRPassFillFlashBlank.apply .DIALOG 100 scen2In =
      [⟨0, 125, .DIALOG⟩, ⟨125, 250, .DIALOG⟩] ∧
    IIRPassFillFlashBlank.apply .DIALOG 100 scen3In = scen3In := by
  refine ⟨fun c maxBlank l => ?_, fun c maxBlank l id A hA ht => ?_,
    fun c maxBlank l id A hA ht => ?_, by decide, by decide⟩
  · rw [IIRPassFillFlashBlank.apply, fill_go_eq_foldl, List.range_eq_range']
  · exact turn_skip_other c maxBlank l id A hA ht
  · exact turn_eq_scanSpec c maxBlank l id A hA ht

/-- Witness for C2 at Scenario 2's input: index 0 holds a DIALOG interval and
its turn equals the claim-worded scan. -/
theorem fillFlashBlank_spec_witness :
    scen2In[0]? = some ⟨0, 100, .DIALOG⟩ ∧
    IIRPassFillFlashBlank.turn .DIALOG 100 scen2In 0 =
      IIRPassFillFlashBlank.scanSpec .DIALOG 100 scen2In 0 :=
  ⟨by decide, fillFlashBlank_spec.2.2.1 .DIALOG 100 scen2In 0 ⟨0, 100, .DIALOG⟩
    (by decide) rfl⟩

theorem fdiv2_between (a b : Int) (h : a < b) :
    a ≤ Int.fdiv (a + b) 2 ∧ Int.fdiv (a + b) 2 < b := by
  have h2 := Int.fdiv_add_fmod (a + b) 2
  have hm0 : 0 ≤ Int.fmod (a + b) 2 := Int.fmod_nonneg' _ (by omega)
  have hm2 : Int.fmod (a + b) 2 < 2 := Int.fmod_lt_of_pos _ (by omega)
  omega

/-- A turn of the sweep either leaves the list unchanged or bridges the
current channel-`c` interval with the first later same-channel interval at
positive distance, with nothing same-channel at positive distance in
between. -/
theorem turn_cases (c : SubtitleType) (maxBlank : Int) (l : List Interval)
    (id : Nat) :
    IIRPassFillFlashBlank.turn c maxBlank l id = l ∨
    ∃ A j B, l[id]? = some A ∧ A.type = c ∧ id < j ∧ l[j]? = some B ∧
      B.type = c ∧ 0 < A.dist B ∧ A.dist B ≤ maxBlank ∧
      (∀ m X, id < m → m < j → l[m]? = some X →
        ¬(X.type = c ∧ 0 < A.dist X)) ∧
      IIRPassFillFlashBlank.turn c maxBlank l id =
        (l.set id { A with «end» := Int.fdiv (A.«end» + B.begin) 2 }).set j
          { B with begin := Int.fdiv (A.«end» + B.begin) 2 } := by
  cases hA : l[id]? with
  | none => left; rw [IIRPassFillFlashBlank.turn, hA]
  | some A =>
      by_cases htype : A.type = c
      · have hturn := turn_eq_scanSpec c maxBlank l id A hA htype
        rw [IIRPassFillFlashBlank.scanSpec] at hturn
        simp only [hA] at hturn
        cases hf : IIRPassFillFlashBlank.findFirstGap c l A l.length (id + 1) with
        | none => left; simpa only [hf] using hturn
        | some j =>
            obtain ⟨hj1, B, hB, hBt, hBd⟩ :=
              findFirstGap_found c l A l.length (id + 1) j hf
            simp only [hf, hB] at hturn
            by_cases hle : A.dist B ≤ maxBlank
            · right
              refine ⟨A, j, B, rfl, htype, by omega, hB, hBt, hBd, hle, ?_, ?_⟩
              · intro m X hm1 hm2 hX
                exact findFirstGap_between c l A l.length (id + 1) j hf m
                  (by omega) hm2 X hX
              · rw [hturn, if_pos hle]
            · left; rw [hturn, if_neg hle]
      · left; exact turn_skip_other c maxBlank l id A hA htype

/-- One turn of the sweep preserves `begin ≤ end` everywhere and the
by-position ordering of same-channel begins. -/
theorem turn_preserves_inv (c : SubtitleType) (maxBlank : Int)
    (l : List Interval) (id : Nat)
    (hok : ∀ I ∈ l, I.begin ≤ I.«end»)
    (hsort : List.Pairwise
      (fun A B : Interval => A.type = c → B.type = c → A.begin ≤ B.begin) l) :
    (∀ I ∈ IIRPassFillFlashBlank.turn c maxBlank l id, I.begin ≤ I.«end») ∧
    List.Pairwise
      (fun A B : Interval => A.type = c → B.type = c → A.begin ≤ B.begin)
      (IIRPassFillFlashBlank.turn c maxBlank l id) := by
  rcases turn_cases c maxBlank l id with heq |
    ⟨A, j, B, hA, hAt, hij, hB, hBt, hd, hle, hbetween, heq⟩
  · rw [heq]; exact ⟨hok, hsort⟩
  · rw [heq]
    obtain ⟨hidlt, hAe⟩ := List.getElem?_eq_some_iff.mp hA
    obtain ⟨hjlt, hBe⟩ := List.getElem?_eq_some_iff.mp hB
    have hsort' := List.pairwise_iff_getElem.mp hsort
    have hAB : A.begin ≤ B.begin := by
      have := hsort' id j hidlt hjlt hij
      rw [hAe, hBe] at this
      exact this hAt hBt
    have hdist : A.dist B = B.begin - A.«end» := by
      rw [Interval.dist, if_neg (by omega)]
    have hgap : A.«end» < B.begin := by
      rw [hdist] at hd; omega
    obtain ⟨hm1, hm2⟩ := fdiv2_between _ _ hgap
    have hAok : A.begin ≤ A.«end» := hok A (hAe ▸ List.getElem_mem hidlt)
    have hBok : B.begin ≤ B.«end» := hok B (hBe ▸ List.getElem_mem hjlt)
    set mid := Int.fdiv (A.«end» + B.begin) 2 with hmid
    set l' := (l.set id { A with «end» := mid }).set j
      { B with begin := mid } with hl'
    have hlen' : l'.length = l.length := by simp [hl']
    have hne : id ≠ j := by omega
    have hgetid : l'[id]? = some { A with «end» := mid } := by
      rw [hl', List.getElem?_set_ne hne.symm, List.getElem?_set_self hidlt]
    have hgetj : l'[j]? = some { B with begin := mid } := by
      rw [hl', List.getElem?_set_self]
      rw [List.length_set]; exact hjlt
    have hgetother : ∀ k, k ≠ id → k ≠ j → l'[k]? = l[k]? := by
      intro k h1 h2
      rw [hl', List.getElem?_set_ne (fun h => h2 h.symm),
        List.getElem?_set_ne (fun h => h1 h.symm)]
    -- positional characterizations of type and begin in the bridged list
    have htype' : ∀ (k : Nat) (hk : k < l.length) (hk' : k < l'.length),
        (l'[k]).type = (l[k]).type := by
      intro k hk hk'
      by_cases h1 : k = id
      · subst h1
        have := List.getElem?_eq_getElem hk'
        rw [hgetid] at this
        rw [← Option.some.inj this, hAe]
      · by_cases h2 : k = j
        · subst h2
          have := List.getElem?_eq_getElem hk'
          rw [hgetj] at this
          rw [← Option.some.inj this, hBe]
        · have := List.getElem?_eq_getElem hk'
          rw [hgetother k h1 h2, List.getElem?_eq_getElem hk] at this
          rw [Option.some.inj this]
    have hbegin' : ∀ (k : Nat) (hk : k < l.length) (hk' : k < l'.length),
        (l'[k]).begin = if k = j then mid else (l[k]).begin := by
      intro k hk hk'
      by_cases h2 : k = j
      · subst h2
        have := List.getElem?_eq_getElem hk'
        rw [hgetj] at this
        rw [← Option.some.inj this, if_pos rfl]
      · rw [if_neg h2]
        by_cases h1 : k = id
        · subst h1
          have := List.getElem?_eq_getElem hk'
          rw [hgetid] at this
          rw [← Option.some.inj this, hAe]
        · have := List.getElem?_eq_getElem hk'
          rw [hgetother k h1 h2, List.getElem?_eq_getElem hk] at this
          rw [Option.some.inj this]
    -- begins of channel-c positions before j stay at most mid
    have hupto : ∀ (p : Nat) (hp : p < l.length), p < j →
        (l[p]).type = c → (l[p]).begin ≤ mid := by
      intro p hp hpj hpt
      rcases Nat.lt_trichotomy p id with h1 | h1 | h1
      · have := hsort' p id hp hidlt h1
        rw [hAe] at this
        have := this hpt hAt
        omega
      · subst h1; rw [hAe]; omega
      · have hAp : A.begin ≤ (l[p]).begin := by
          have := hsort' id p hidlt hp h1
          rw [hAe] at this
          exact this hAt hpt
        have hnb := hbetween p (l[p]) h1 hpj (List.getElem?_eq_getElem hp)
        have hdp : A.dist (l[p]) = (l[p]).begin - A.«end» := by
          rw [Interval.dist, if_neg (by omega)]
        have : ¬(0 < A.dist (l[p])) := fun hc => hnb ⟨hpt, hc⟩
        omega
    constructor
    · intro I hI
      obtain ⟨k, hk', rfl⟩ := List.mem_iff_getElem.mp hI
      have hk : k < l.length := by omega
      by_cases h1 : k = id
      · subst h1
        have := List.getElem?_eq_getElem hk'
        rw [hgetid] at this
        rw [← Option.some.inj this]
        exact le_trans hAok hm1
      · by_cases h2 : k = j
        · subst h2
          have := List.getElem?_eq_getElem hk'
          rw [hgetj] at this
          rw [← Option.some.inj this]
          exact le_trans (le_of_lt hm2) hBok
        · have := List.getElem?_eq_getElem hk'
          rw [hgetother k h1 h2, List.getElem?_eq_getElem hk] at this
          rw [← Option.some.inj this]
          exact hok _ (List.getElem_mem hk)
    · rw [List.pairwise_iff_getElem]
      intro p q hp' hq' hpq
      have hp : p < l.length := by omega
      have hq : q < l.length := by omega
      intro hpt hqt
      rw [htype' p hp hp'] at hpt
      rw [htype' q hq hq'] at hqt
      rw [hbegin' p hp hp', hbegin' q hq hq']
      by_cases h2 : q = j
      · rw [if_pos h2, if_neg (by omega)]
        exact hupto p hp (by omega) hpt
      · rw [if_neg h2]
        by_cases h1 : p = j
        · rw [if_pos h1]
          have hjq : j < q := h1 ▸ hpq
          have := hsort' j q hjlt hq hjq
          rw [hBe] at this
          have := this hBt hqt
          omega
        · rw [if_neg h1]
          exact hsort' p q hp hq hpq hpt hqt

theorem go_preserves_inv (c : SubtitleType) (maxBlank : Int) :
    ∀ (n id : Nat) (l : List Interval),
      (∀ I ∈ l, I.begin ≤ I.«end») →
      List.Pairwise
        (fun A B : Interval => A.type = c → B.type = c → A.begin ≤ B.begin) l →
      (∀ I ∈ IIRPassFillFlashBlank.go c maxBlank n id l, I.begin ≤ I.«end») ∧
      List.Pairwise
        (fun A B : Interval => A.type = c → B.type = c → A.begin ≤ B.begin)
        (IIRPassFillFlashBlank.go c maxBlank n id l) := by
  intro n
  induction n with
  | zero => intro id l hok hsort; exact ⟨hok, hsort⟩
  | succ n ih =>
      intro id l hok hsort
      rw [IIRPassFillFlashBlank.go]
      obtain ⟨hok', hsort'⟩ := turn_preserves_inv c maxBlank l id hok hsort
      exact ih (id + 1) _ hok' hsort'

theorem insertByBegin_perm (a : Interval) :
    ∀ l : List Interval, List.Perm (insertByBegin a l) (a :: l) := by
  intro l
  induction l with
  | nil => exact List.Perm.refl _
  | cons b l ih =>
      rw [insertByBegin]
      by_cases h : a.begin ≤ b.begin
      · rw [if_pos h]
      · rw [if_neg h]
        exact (ih.cons b).trans (List.Perm.swap a b l)

theorem sort_perm : ∀ l : List Interval, List.Perm (IIR.sort l) l := by
  intro l
  induction l with
  | nil => exact List.Perm.refl _
  | cons x xs ih =>
      have hx : IIR.sort (x :: xs) = insertByBegin x (IIR.sort xs) := rfl
      rw [hx]
      exact (insertByBegin_perm x (IIR.sort xs)).trans (ih.cons x)

/-- C10: assuming non-decreasing producer timestamps, every interval emitted
by the interval-build pass has `begin ≤ end`; and on a begin-sorted
collection of intervals each satisfying `begin ≤ end`, the gap-bridging pass
(midpoint reassignments included) preserves `begin ≤ end` for every
interval. -/
theorem interval_begin_le_end :
    (∀ (c : SubtitleType) (fp : List FramePoint) (out : List Interval),
      List.Pairwise (fun a b : FramePoint => a.timestamp ≤ b.timestamp) fp →
      FPIRPassBuildIntervals.apply c fp = some out →
      ∀ I ∈ out, I.begin ≤ I.«end») ∧
    (∀ (c : SubtitleType) (maxBlank : Int) (l : List Interval),
      List.Pairwise (fun A B : Interval => A.begin ≤ B.begin) l →
      (∀ I ∈ l, I.begin ≤ I.«end») →
      ∀ I ∈ IIRPassFillFlashBlank.apply c maxBlank l, I.begin ≤ I.«end») := by
  refine ⟨fun c fp out hpw h => build_okEnds c fp out hpw h,
    fun c maxBlank l hsort hok I hI => ?_⟩
  have hsort' : List.Pairwise
      (fun A B : Interval => A.type = c → B.type = c → A.begin ≤ B.begin) l :=
    hsort.imp (fun h _ _ => h)
  obtain ⟨hok', -⟩ := go_preserves_inv c maxBlank l.length 0 l hok hsort'
  have hperm := sort_perm (IIRPassFillFlashBlank.go c maxBlank l.length 0 l)
  exact hok' I (hperm.mem_iff.mp hI)

/-- Witness for C10 at concrete inputs: Scenario 1's frame list has sorted
timestamps, and Scenario 2's interval list is begin-sorted with valid
intervals. -/
theorem interval_begin_le_end_witness :
    (∀ I ∈ Option.getD (FPIRPassBuildIntervals.apply .DIALOG scen1) [],
      I.begin ≤ I.«end») ∧
    (∀ I ∈ IIRPassFillFlashBlank.apply .DIALOG 100 scen2In,
      I.begin ≤ I.«end») := by
  constructor
  · intro I hI
    refine interval_begin_le_end.1 .DIALOG scen1
      (Option.getD (FPIRPassBuildIntervals.apply .DIALOG scen1) [])
      (by decide) (by decide) I hI
  · exact interval_begin_le_end.2 .DIALOG 100 scen2In (by decide) (by decide)

/-- C4 counterexample: the sorted, pairwise non-overlapping one-channel input
`[0,10), [10,12), [20,30)` with `maxGap = 100` yields `[0,15), [10,13),
[13,30)`: the first two output intervals are at distance `-5 < 0`, and the
disjoint pair `([0,10), [20,30))` with `dist = 10 ∈ (0,100]` does not end at
its floor midpoint on both sides. -/
theorem fillFlashBlank_overlap_cex :
    List.Pairwise (fun A B : Interval => 0 ≤ A.dist B ∧ 0 ≤ B.dist A) touch3In ∧
    IIRPassFillFlashBlank.apply .DIALOG 100 touch3In =
      [⟨0, 15, .DIALOG⟩, ⟨10, 13, .DIALOG⟩, ⟨13, 30, .DIALOG⟩] ∧
    Interval.dist ⟨0, 15, .DIALOG⟩ ⟨10, 13, .DIALOG⟩ < 0 := by
  refine ⟨by decide, by decide, by decide⟩

theorem dist_eq_of_le (A B : Interval) (h : A.begin ≤ B.begin) :
    A.dist B = B.begin - A.«end» := by
  rw [Interval.dist, if_neg (by omega)]

theorem firstCFrom_found (c : SubtitleType) (l : List Interval) :
    ∀ (fuel start j : Nat), firstCFrom c l fuel start = some j →
      start ≤ j ∧ ∃ B, l[j]? = some B ∧ B.type = c := by
  intro fuel
  induction fuel with
  | zero => intro start j h; cases h
  | succ fuel ih =>
      intro start j h
      rw [firstCFrom] at h
      cases hB : l[start]? with
      | none => simp only [hB] at h; cases h
      | some B =>
          simp only [hB] at h
          by_cases hc : B.type = c
          · rw [if_pos hc] at h
            cases h
            exact ⟨le_refl _, B, hB, hc⟩
          · rw [if_neg hc] at h
            obtain ⟨h1, h2⟩ := ih (start + 1) j h
            exact ⟨Nat.le_of_succ_le h1, h2⟩

theorem firstCFrom_between (c : SubtitleType) (l : List Interval) :
    ∀ (fuel start j : Nat), firstCFrom c l fuel start = some j →
      ∀ m X, start ≤ m → m < j → l[m]? = some X → X.type ≠ c := by
  intro fuel
  induction fuel with
  | zero => intro start j h; cases h
  | succ fuel ih =>
      intro start j h m X hm1 hm2 hX
      rw [firstCFrom] at h
      cases hB : l[start]? with
      | none => simp only [hB] at h; cases h
      | some B =>
          simp only [hB] at h
          by_cases hc : B.type = c
          · rw [if_pos hc] at h; cases h; omega
          · rw [if_neg hc] at h
            rcases Nat.eq_or_lt_of_le hm1 with rfl | hlt
            · rw [hB] at hX; cases hX; exact hc
            · exact ih (start + 1) j h m X hlt hm2 hX

theorem firstCFrom_none (c : SubtitleType) (l : List Interval) :
    ∀ (fuel start : Nat), firstCFrom c l fuel start = none →
      ∀ m X, start ≤ m → m < start + fuel → l[m]? = some X → X.type ≠ c := by
  intro fuel
  induction fuel with
  | zero => intro start _ m X hm1 hm2; omega
  | succ fuel ih =>
      intro start h m X hm1 hm2 hX
      rw [firstCFrom] at h
      cases hB : l[start]? with
      | none =>
          have hlen : l.length ≤ start := by
            by_contra hcon
            rw [List.getElem?_eq_getElem (by omega)] at hB
            cases hB
          rw [List.getElem?_eq_none (by omega)] at hX
          cases hX
      | some B =>
          simp only [hB] at h
          by_cases hc : B.type = c
          · rw [if_pos hc] at h; cases h
          · rw [if_neg hc] at h
            rcases Nat.eq_or_lt_of_le hm1 with rfl | hlt
            · rw [hB] at hX; cases hX; exact hc
            · exact ih (start + 1) h m X hlt (by omega) hX

theorem firstCFrom_le (c : SubtitleType) (l : List Interval) :
    ∀ (fuel start r : Nat) (B : Interval), start ≤ r → r < start + fuel →
      l[r]? = some B → B.type = c →
      ∃ j, firstCFrom c l fuel start = some j ∧ j ≤ r := by
  intro fuel
  induction fuel with
  | zero => intro start r B h1 h2; omega
  | succ fuel ih =>
      intro start r B h1 h2 hB hBt
      rw [firstCFrom]
      cases hS : l[start]? with
      | none =>
          have hlen : l.length ≤ start := by
            by_contra hcon
            rw [List.getElem?_eq_getElem (by omega)] at hS
            cases hS
          have : r < l.length := by
            by_contra hcon
            rw [List.getElem?_eq_none (by omega)] at hB
            cases hB
          omega
      | some X =>
          simp only
          by_cases hc : X.type = c
          · exact ⟨start, by rw [if_pos hc], h1⟩
          · rw [if_neg hc]
            rcases Nat.eq_or_lt_of_le h1 with rfl | hlt
            · rw [hS] at hB; cases hB; exact absurd hBt hc
            · obtain ⟨j, hj1, hj2⟩ := ih (start + 1) r B hlt (by omega) hB hBt
              exact ⟨j, hj1, hj2⟩

theorem lastCBefore_found (c : SubtitleType) (l : List Interval) :
    ∀ (p q : Nat), lastCBefore c l p = some q →
      q < p ∧ ∃ B, l[q]? = some B ∧ B.type = c := by
  intro p
  induction p with
  | zero => intro q h; cases h
  | succ p ih =>
      intro q h
      rw [lastCBefore] at h
      cases hB : l[p]? with
      | none =>
          simp only [hB] at h
          obtain ⟨h1, h2⟩ := ih q h
          exact ⟨by omega, h2⟩
      | some B =>
          simp only [hB] at h
          by_cases hc : B.type = c
          · rw [if_pos hc] at h
            cases h
            exact ⟨Nat.lt_succ_self _, B, hB, hc⟩
          · rw [if_neg hc] at h
            obtain ⟨h1, h2⟩ := ih q h
            exact ⟨by omega, h2⟩

theorem lastCBefore_eq_of (c : SubtitleType) (l : List Interval) :
    ∀ (j p : Nat) (A : Interval), p < j → l[p]? = some A → A.type = c →
      (∀ m X, p < m → m < j → l[m]? = some X → X.type ≠ c) →
      lastCBefore c l j = some p := by
  intro j
  induction j with
  | zero => intro p A h; omega
  | succ j ih =>
      intro p A hpj hA hAt hbet
      rw [lastCBefore]
      rcases Nat.eq_or_lt_of_le (Nat.le_of_lt_succ hpj) with rfl | hlt
      · rw [hA]
        simp only
        rw [if_pos hAt]
      · cases hB : l[j]? with
        | none =>
            simp only
            exact ih p A hlt hA hAt
              (fun m X h1 h2 hX => hbet m X h1 (by omega) hX)
        | some B =>
            have hBt : B.type ≠ c := hbet j B hlt (Nat.lt_succ_self _) hB
            simp only
            rw [if_neg hBt]
            exact ih p A hlt hA hAt
              (fun m X h1 h2 hX => hbet m X h1 (by omega) hX)

theorem bridgeTarget_found (c : SubtitleType) (mB : Int) (l : List Interval)
    (p j : Nat) (h : bridgeTarget c mB l p = some j) :
    ∃ A B, l[p]? = some A ∧ A.type = c ∧
      firstCFrom c l l.length (p + 1) = some j ∧ l[j]? = some B ∧
      B.type = c ∧ p < j ∧ 0 < A.dist B ∧ A.dist B ≤ mB := by
  unfold bridgeTarget at h
  cases hA : l[p]? with
  | none => simp only [hA] at h; cases h
  | some A =>
      simp only [hA] at h
      by_cases hAt : A.type = c
      · rw [if_pos hAt] at h
        cases hf : firstCFrom c l l.length (p + 1) with
        | none => simp only [hf] at h; cases h
        | some j' =>
            simp only [hf] at h
            cases hB : l[j']? with
            | none => simp only [hB] at h; cases h
            | some B =>
                simp only [hB] at h
                by_cases hcond : 0 < A.dist B ∧ A.dist B ≤ mB
                · rw [if_pos hcond] at h
                  cases h
                  obtain ⟨hj1, B2, hB2, hBt'⟩ :=
                    firstCFrom_found c l l.length (p + 1) j hf
                  have hBB : B2 = B := by rw [hB2] at hB; cases hB; rfl
                  subst hBB
                  exact ⟨A, B2, rfl, hAt, rfl, hB2, hBt', by omega,
                    hcond.1, hcond.2⟩
                · rw [if_neg hcond] at h; cases h
      · rw [if_neg hAt] at h; cases h

theorem bridgeTarget_eq_some (c : SubtitleType) (mB : Int) (l : List Interval)
    (p j : Nat) (A B : Interval) (hA : l[p]? = some A) (hAt : A.type = c)
    (hf : firstCFrom c l l.length (p + 1) = some j) (hB : l[j]? = some B)
    (hd : 0 < A.dist B) (hle : A.dist B ≤ mB) :
    bridgeTarget c mB l p = some j := by
  unfold bridgeTarget
  simp only [hA]
  rw [if_pos hAt]
  simp only [hf, hB]
  rw [if_pos ⟨hd, hle⟩]

theorem bridgeTarget_none_char (c : SubtitleType) (mB : Int) (l : List Interval)
    (p : Nat) (A : Interval) (hA : l[p]? = some A) (hAt : A.type = c)
    (h : ∀ j B, firstCFrom c l l.length (p + 1) = some j → l[j]? = some B →
      ¬(0 < A.dist B ∧ A.dist B ≤ mB)) :
    bridgeTarget c mB l p = none := by
  unfold bridgeTarget
  simp only [hA]
  rw [if_pos hAt]
  cases hf : firstCFrom c l l.length (p + 1) with
  | none => rfl
  | some j =>
      simp only
      cases hB : l[j]? with
      | none => rfl
      | some B => exact if_neg (h j B hf hB)

theorem bridgeTarget_none_of_type (c : SubtitleType) (mB : Int)
    (l : List Interval) (p : Nat) (A : Interval) (hA : l[p]? = some A)
    (hAt : A.type ≠ c) : bridgeTarget c mB l p = none := by
  unfold bridgeTarget
  simp only [hA]
  rw [if_neg hAt]

theorem bridgeTarget_none_of_oob (c : SubtitleType) (mB : Int)
    (l : List Interval) (p : Nat) (hA : l[p]? = none) :
    bridgeTarget c mB l p = none := by
  unfold bridgeTarget
  simp only [hA]

theorem mapIdxFrom_getElem? (f : Nat → Interval → Interval) :
    ∀ (l : List Interval) (p0 i : Nat),
      (mapIdxFrom f p0 l)[i]? = (l[i]?).map (f (p0 + i)) := by
  intro l
  induction l with
  | nil => intro p0 i; simp [mapIdxFrom]
  | cons I rest ih =>
      intro p0 i
      cases i with
      | zero => simp [mapIdxFrom]
      | succ i =>
          rw [mapIdxFrom]
          simp only [List.getElem?_cons_succ]
          rw [ih (p0 + 1) i]
          have : p0 + 1 + i = p0 + (i + 1) := by omega
          rw [this]

theorem mapIdxFrom_length (f : Nat → Interval → Interval) :
    ∀ (l : List Interval) (p0 : Nat), (mapIdxFrom f p0 l).length = l.length := by
  intro l
  induction l with
  | nil => intro p0; rfl
  | cons I rest ih => intro p0; rw [mapIdxFrom]; simp [ih]

theorem stateAfter_getElem? (c : SubtitleType) (mB : Int) (l : List Interval)
    (k i : Nat) :
    (stateAfter c mB l k)[i]? = (l[i]?).map (transformAt c mB l k i) := by
  rw [stateAfter, mapIdxFrom_getElem?, Nat.zero_add]

theorem stateAfter_length (c : SubtitleType) (mB : Int) (l : List Interval)
    (k : Nat) : (stateAfter c mB l k).length = l.length :=
  mapIdxFrom_length ..

theorem transformAt_type (c : SubtitleType) (mB : Int) (l : List Interval)
    (k p : Nat) (I : Interval) : (transformAt c mB l k p I).type = I.type := rfl

theorem transformAt_end (c : SubtitleType) (mB : Int) (l : List Interval)
    (k p : Nat) (I : Interval) :
    (transformAt c mB l k p I).«end» =
      (match bridgeTarget c mB l p with
        | some j => if p < k then midAt l p j else I.«end»
        | none => I.«end») := rfl

theorem transformAt_begin (c : SubtitleType) (mB : Int) (l : List Interval)
    (k p : Nat) (I : Interval) :
    (transformAt c mB l k p I).begin =
      (match lastCBefore c l p with
        | some q =>
            match bridgeTarget c mB l q with
            | some j => if j = p ∧ q < k then midAt l q p else I.begin
            | none => I.begin
        | none => I.begin) := rfl

theorem transformAt_eta (c : SubtitleType) (mB : Int) (l : List Interval)
    (k p : Nat) (I : Interval) :
    transformAt c mB l k p I =
      ⟨(transformAt c mB l k p I).begin, (transformAt c mB l k p I).«end»,
        I.type⟩ := rfl

theorem transformAt_zero (c : SubtitleType) (mB : Int) (l : List Interval)
    (p : Nat) (I : Interval) : transformAt c mB l 0 p I = I := by
  have he : (transformAt c mB l 0 p I).«end» = I.«end» := by
    rw [transformAt_end]
    cases bridgeTarget c mB l p with
    | none => rfl
    | some j => simp
  have hb : (transformAt c mB l 0 p I).begin = I.begin := by
    rw [transformAt_begin]
    cases lastCBefore c l p with
    | none => rfl
    | some q =>
        simp only
        cases bridgeTarget c mB l q with
        | none => rfl
        | some j => exact if_neg (fun hc => Nat.not_lt_zero q hc.2)
  rw [transformAt_eta, he, hb]

theorem stateAfter_zero (c : SubtitleType) (mB : Int) (l : List Interval) :
    stateAfter c mB l 0 = l := by
  apply List.ext_getElem?
  intro i
  rw [stateAfter_getElem?]
  cases h : l[i]? with
  | none => rfl
  | some I => rw [Option.map_some', transformAt_zero]

theorem lastCBefore_none (c : SubtitleType) (l : List Interval) :
    ∀ (p : Nat), lastCBefore c l p = none →
      ∀ m X, m < p → l[m]? = some X → X.type ≠ c := by
  intro p
  induction p with
  | zero => intro _ m X h; omega
  | succ p ih =>
      intro h m X hm hX
      rw [lastCBefore] at h
      cases hB : l[p]? with
      | none =>
          simp only [hB] at h
          rcases Nat.eq_or_lt_of_le (Nat.le_of_lt_succ hm) with rfl | hlt
          · rw [hB] at hX; cases hX
          · exact ih h m X hlt hX
      | some B =>
          simp only [hB] at h
          by_cases hc : B.type = c
          · rw [if_pos hc] at h; cases h
          · rw [if_neg hc] at h
            rcases Nat.eq_or_lt_of_le (Nat.le_of_lt_succ hm) with rfl | hlt
            · rw [hB] at hX; cases hX; exact hc
            · exact ih h m X hlt hX

theorem findFirstGap_eq_none (c : SubtitleType) (l : List Interval)
    (A : Interval) : ∀ (fuel start : Nat),
    (∀ m X, start ≤ m → l[m]? = some X → ¬(X.type = c ∧ 0 < A.dist X)) →
    IIRPassFillFlashBlank.findFirstGap c l A fuel start = none := by
  intro fuel
  induction fuel with
  | zero => intro start _; rfl
  | succ fuel ih =>
      intro start h
      rw [IIRPassFillFlashBlank.findFirstGap]
      cases hB : l[start]? with
      | none => rfl
      | some B =>
          simp only
          rw [if_neg (h start B (le_refl _) hB)]
          exact ih (start + 1) (fun m X hm hX => h m X (by omega) hX)

theorem findFirstGap_eq_some (c : SubtitleType) (l : List Interval)
    (A : Interval) : ∀ (fuel start j : Nat) (B : Interval), start ≤ j →
      j < start + fuel → l[j]? = some B → B.type = c → 0 < A.dist B →
      (∀ m X, start ≤ m → m < j → l[m]? = some X →
        ¬(X.type = c ∧ 0 < A.dist X)) →
      IIRPassFillFlashBlank.findFirstGap c l A fuel start = some j := by
  intro fuel
  induction fuel with
  | zero => intro start j B h1 h2; omega
  | succ fuel ih =>
      intro start j B h1 h2 hB hBt hBd hbet
      rw [IIRPassFillFlashBlank.findFirstGap]
      rcases Nat.eq_or_lt_of_le h1 with rfl | hlt
      · rw [hB]
        simp only
        rw [if_pos ⟨hBt, hBd⟩]
      · cases hS : l[start]? with
        | none =>
            have hlen : l.length ≤ start := by
              by_contra hcon
              rw [List.getElem?_eq_getElem (by omega)] at hS
              cases hS
            have : j < l.length := by
              by_contra hcon
              rw [List.getElem?_eq_none (by omega)] at hB
              cases hB
            omega
        | some X =>
            simp only
            rw [if_neg (hbet start X (le_refl _) hlt hS)]
            exact ih (start + 1) j B hlt (by omega) hB hBt hBd
              (fun m Y hm1 hm2 hY => hbet m Y (by omega) hm2 hY)

theorem transformAt_begin_le (c : SubtitleType) (mB : Int) (l : List Interval)
    (H1 : List.Pairwise (fun A B : Interval => A.begin ≤ B.begin) l)
    (k p : Nat) (J : Interval) (hJ : l[p]? = some J) :
    (transformAt c mB l k p J).begin ≤ J.begin := by
  rw [transformAt_begin]
  cases hq : lastCBefore c l p with
  | none => exact le_refl _
  | some q =>
      simp only
      cases hbt : bridgeTarget c mB l q with
      | none => exact le_refl _
      | some j =>
          simp only
          by_cases hcond : j = p ∧ q < k
          · rw [if_pos hcond]
            obtain ⟨A, B, hA, hAt, hf, hB, hBt, hqj, hd, hle⟩ :=
              bridgeTarget_found c mB l q j hbt
            obtain ⟨hjp, hqk⟩ := hcond
            have hBp : l[p]? = some B := by rw [← hjp]; exact hB
            have hBJ : B = J := Option.some.inj (hBp.symm.trans hJ)
            obtain ⟨hqlt, hAe⟩ := List.getElem?_eq_some_iff.mp hA
            obtain ⟨hjlt, hBe⟩ := List.getElem?_eq_some_iff.mp hB
            have horient : A.begin ≤ B.begin := by
              have h := List.pairwise_iff_getElem.mp H1 q j hqlt hjlt hqj
              rw [hAe, hBe] at h
              exact h
            have hdist : A.dist B = B.begin - A.«end» := dist_eq_of_le A B horient
            have hgap : A.«end» < B.begin := by omega
            have hmid : midAt l q p = Int.fdiv (A.«end» + B.begin) 2 := by
              rw [← hjp, midAt, hA, hB]
            obtain ⟨h1, h2⟩ := fdiv2_between _ _ hgap
            rw [hmid, ← hBJ]
            omega
          · rw [if_neg hcond]

theorem transformAt_end_ge (c : SubtitleType) (mB : Int) (l : List Interval)
    (H1 : List.Pairwise (fun A B : Interval => A.begin ≤ B.begin) l)
    (k p : Nat) (J : Interval) (hJ : l[p]? = some J) :
    J.«end» ≤ (transformAt c mB l k p J).«end» := by
  rw [transformAt_end]
  cases hbt : bridgeTarget c mB l p with
  | none => exact le_refl _
  | some j =>
      simp only
      by_cases hpk : p < k
      · rw [if_pos hpk]
        obtain ⟨A, B, hA, hAt, hf, hB, hBt, hpj, hd, hle⟩ :=
          bridgeTarget_found c mB l p j hbt
        have hAJ : A = J := Option.some.inj (hA.symm.trans hJ)
        obtain ⟨hplt, hAe⟩ := List.getElem?_eq_some_iff.mp hA
        obtain ⟨hjlt, hBe⟩ := List.getElem?_eq_some_iff.mp hB
        have horient : A.begin ≤ B.begin := by
          have h := List.pairwise_iff_getElem.mp H1 p j hplt hjlt hpj
          rw [hAe, hBe] at h
          exact h
        have hdist : A.dist B = B.begin - A.«end» := dist_eq_of_le A B horient
        have hgap : A.«end» < B.begin := by omega
        have hmid : midAt l p j = Int.fdiv (A.«end» + B.begin) 2 := by
          rw [midAt, hA, hB]
        obtain ⟨h1, h2⟩ := fdiv2_between _ _ hgap
        rw [hmid, ← hAJ]
        omega
      · rw [if_neg hpk]

theorem transformAt_end_of_ge (c : SubtitleType) (mB : Int) (l : List Interval)
    (k p : Nat) (J : Interval) (h : k ≤ p) :
    (transformAt c mB l k p J).«end» = J.«end» := by
  rw [transformAt_end]
  cases bridgeTarget c mB l p with
  | none => rfl
  | some j => exact if_neg (by omega)

theorem transformAt_succ_of_no_bridge (c : SubtitleType) (mB : Int)
    (l : List Interval) (k : Nat) (hk : bridgeTarget c mB l k = none)
    (i : Nat) (J : Interval) :
    transformAt c mB l (k + 1) i J = transformAt c mB l k i J := by
  have he : (transformAt c mB l (k + 1) i J).«end» =
      (transformAt c mB l k i J).«end» := by
    rw [transformAt_end, transformAt_end]
    cases hbt : bridgeTarget c mB l i with
    | none => rfl
    | some j =>
        have hik : i ≠ k := by
          intro h; rw [h, hk] at hbt; cases hbt
        simp only
        by_cases h1 : i < k
        · rw [if_pos (by omega), if_pos h1]
        · rw [if_neg (by omega), if_neg h1]
  have hb : (transformAt c mB l (k + 1) i J).begin =
      (transformAt c mB l k i J).begin := by
    rw [transformAt_begin, transformAt_begin]
    cases hq : lastCBefore c l i with
    | none => rfl
    | some q =>
        simp only
        cases hbt : bridgeTarget c mB l q with
        | none => rfl
        | some j =>
            have hqk : q ≠ k := by
              intro h; rw [h, hk] at hbt; cases hbt
            simp only
            by_cases hcond : j = i ∧ q < k
            · rw [if_pos ⟨hcond.1, by omega⟩, if_pos hcond]
            · rw [if_neg (fun hc => hcond ⟨hc.1, by omega⟩), if_neg hcond]
  rw [transformAt_eta c mB l (k + 1), transformAt_eta c mB l k, he, hb]

theorem stateAfter_succ_of_no_bridge (c : SubtitleType) (mB : Int)
    (l : List Interval) (k : Nat) (hk : bridgeTarget c mB l k = none) :
    stateAfter c mB l (k + 1) = stateAfter c mB l k := by
  apply List.ext_getElem?
  intro i
  rw [stateAfter_getElem?, stateAfter_getElem?]
  cases hI : l[i]? with
  | none => rfl
  | some J => rw [Option.map_some', Option.map_some',
      transformAt_succ_of_no_bridge c mB l k hk i J]

theorem transformAt_succ_of_bridge_other (c : SubtitleType) (mB : Int)
    (l : List Interval) (k j : Nat) (hbt : bridgeTarget c mB l k = some j)
    (i : Nat) (hik : i ≠ k) (hij : i ≠ j) (J : Interval) :
    transformAt c mB l (k + 1) i J = transformAt c mB l k i J := by
  have he : (transformAt c mB l (k + 1) i J).«end» =
      (transformAt c mB l k i J).«end» := by
    rw [transformAt_end, transformAt_end]
    cases hbti : bridgeTarget c mB l i with
    | none => rfl
    | some j2 =>
        simp only
        by_cases h1 : i < k
        · rw [if_pos (by omega), if_pos h1]
        · rw [if_neg (by omega), if_neg h1]
  have hb : (transformAt c mB l (k + 1) i J).begin =
      (transformAt c mB l k i J).begin := by
    rw [transformAt_begin, transformAt_begin]
    cases hq : lastCBefore c l i with
    | none => rfl
    | some q =>
        simp only
        cases hbtq : bridgeTarget c mB l q with
        | none => rfl
        | some j2 =>
            simp only
            by_cases hcond : j2 = i ∧ q < k
            · rw [if_pos ⟨hcond.1, by omega⟩, if_pos hcond]
            · have hnot : ¬(j2 = i ∧ q < k + 1) := by
                intro hc
                by_cases hqk : q = k
                · rw [hqk, hbt] at hbtq
                  cases hbtq
                  exact hij hc.1.symm
                · exact hcond ⟨hc.1, by omega⟩
              rw [if_neg hnot, if_neg hcond]
  rw [transformAt_eta c mB l (k + 1), transformAt_eta c mB l k, he, hb]

theorem transformAt_begin_succ_self (c : SubtitleType) (mB : Int)
    (l : List Interval) (k : Nat) (J : Interval) :
    (transformAt c mB l (k + 1) k J).begin =
      (transformAt c mB l k k J).begin := by
  rw [transformAt_begin, transformAt_begin]
  cases hq : lastCBefore c l k with
  | none => rfl
  | some q =>
      simp only
      cases hbtq : bridgeTarget c mB l q with
      | none => rfl
      | some j2 =>
          obtain ⟨hqk, -⟩ := lastCBefore_found c l k q hq
          simp only
          by_cases hj2 : j2 = k
          · rw [if_pos ⟨hj2, by omega⟩, if_pos ⟨hj2, hqk⟩]
          · rw [if_neg (fun hc => hj2 hc.1), if_neg (fun hc => hj2 hc.1)]

/-- On a begin-sorted list whose channel-`c` intervals are pairwise at
positive distance, turn `k` of the sweep takes the closed-form state after
`k` turns to the closed-form state after `k + 1` turns. -/
theorem turn_stateAfter (c : SubtitleType) (mB : Int) (l : List Interval)
    (H1 : List.Pairwise (fun A B : Interval => A.begin ≤ B.begin) l)
    (H3 : List.Pairwise
      (fun A B : Interval => A.type = c → B.type = c → 0 < A.dist B) l)
    (k : Nat) :
    IIRPassFillFlashBlank.turn c mB (stateAfter c mB l k) k =
      stateAfter c mB l (k + 1) := by
  set S := stateAfter c mB l k with hS
  have hSlen : S.length = l.length := stateAfter_length ..
  cases hI : l[k]? with
  | none =>
      have hSk : S[k]? = none := by rw [hS, stateAfter_getElem?, hI]; rfl
      have ht : IIRPassFillFlashBlank.turn c mB S k = S := by
        rw [IIRPassFillFlashBlank.turn, hSk]
      rw [ht, stateAfter_succ_of_no_bridge c mB l k
        (bridgeTarget_none_of_oob c mB l k hI)]
  | some I =>
      have hSk : S[k]? = some (transformAt c mB l k k I) := by
        rw [hS, stateAfter_getElem?, hI]; rfl
      set A2 := transformAt c mB l k k I with hA2def
      have hA2type : A2.type = I.type := transformAt_type ..
      have hA2end : A2.«end» = I.«end» :=
        transformAt_end_of_ge c mB l k k I (le_refl k)
      by_cases hIt : I.type = c
      · have H1' := List.pairwise_iff_getElem.mp H1
        have H3' := List.pairwise_iff_getElem.mp H3
        obtain ⟨hklt, hIe⟩ := List.getElem?_eq_some_iff.mp hI
        cases hf : firstCFrom c l l.length (k + 1) with
        | none =>
            have hnone : IIRPassFillFlashBlank.findFirstGap c S A2
                S.length (k + 1) = none := by
              apply findFirstGap_eq_none
              intro m X hm hX
              rw [hS, stateAfter_getElem?] at hX
              cases hJm : l[m]? with
              | none => rw [hJm] at hX; cases hX
              | some Jm =>
                  rw [hJm, Option.map_some'] at hX
                  cases hX
                  intro hc
                  have hXt : (transformAt c mB l k m Jm).type = Jm.type :=
                    transformAt_type ..
                  obtain ⟨hmlt, -⟩ := List.getElem?_eq_some_iff.mp hJm
                  exact firstCFrom_none c l l.length (k + 1) hf m Jm hm
                    (by omega) hJm (by rw [← hXt]; exact hc.1)
            have ht := turn_eq_scanSpec c mB S k A2 hSk (by rw [hA2type]; exact hIt)
            rw [ht, IIRPassFillFlashBlank.scanSpec]
            simp only [hSk, hnone]
            rw [stateAfter_succ_of_no_bridge c mB l k
              (bridgeTarget_none_char c mB l k I hI hIt
                (by intro j0 B0 hj0 _; rw [hf] at hj0; cases hj0))]
        | some j =>
            obtain ⟨hj1, B, hB, hBt⟩ := firstCFrom_found c l l.length (k + 1) j hf
            obtain ⟨hjlt, hBe⟩ := List.getElem?_eq_some_iff.mp hB
            have hlastj : lastCBefore c l j = some k :=
              lastCBefore_eq_of c l j k I (by omega) hI hIt
                (fun m X h1 h2 hX =>
                  firstCFrom_between c l l.length (k + 1) j hf m X (by omega) h2 hX)
            have hSj : S[j]? = some (transformAt c mB l k j B) := by
              rw [hS, stateAfter_getElem?, hB]; rfl
            set B2 := transformAt c mB l k j B with hB2def
            have hB2type : B2.type = B.type := transformAt_type ..
            have hB2end : B2.«end» = B.«end» :=
              transformAt_end_of_ge c mB l k j B (by omega)
            have hB2begin : B2.begin = B.begin := by
              rw [hB2def, transformAt_begin, hlastj]
              simp only
              cases hbtk : bridgeTarget c mB l k with
              | none => rfl
              | some j0 => exact if_neg (fun hc => Nat.lt_irrefl k hc.2)
            have horiIB : I.begin ≤ B.begin := by
              have h := H1' k j hklt hjlt (by omega)
              rw [hIe, hBe] at h
              exact h
            have hdpos : 0 < I.dist B := by
              have h := H3' k j hklt hjlt (by omega)
              rw [hIe, hBe] at h
              exact h hIt hBt
            have hdIB : I.dist B = B.begin - I.«end» := dist_eq_of_le I B horiIB
            have hA2ble : A2.begin ≤ I.begin :=
              transformAt_begin_le c mB l H1 k k I hI
            have hdA2B2 : A2.dist B2 = I.dist B := by
              rw [dist_eq_of_le A2 B2 (by rw [hB2begin]; omega), hB2begin,
                hA2end, hdIB]
            have hfind : IIRPassFillFlashBlank.findFirstGap c S A2
                S.length (k + 1) = some j := by
              apply findFirstGap_eq_some c S A2 S.length (k + 1) j B2 hj1
                (by omega) hSj (by rw [hB2type]; exact hBt)
                (by rw [hdA2B2]; exact hdpos)
              intro m X hm1 hm2 hX
              rw [hS, stateAfter_getElem?] at hX
              cases hJm : l[m]? with
              | none => rw [hJm] at hX; cases hX
              | some Jm =>
                  rw [hJm, Option.map_some'] at hX
                  cases hX
                  intro hc
                  have hXt : (transformAt c mB l k m Jm).type = Jm.type :=
                    transformAt_type ..
                  exact firstCFrom_between c l l.length (k + 1) j hf m Jm hm1
                    hm2 hJm (by rw [← hXt]; exact hc.1)
            have ht := turn_eq_scanSpec c mB S k A2 hSk (by rw [hA2type]; exact hIt)
            rw [ht, IIRPassFillFlashBlank.scanSpec]
            simp only [hSk, hfind, hSj]
            have hmidkj : midAt l k j = Int.fdiv (I.«end» + B.begin) 2 := by
              rw [midAt, hI, hB]
            have hmid' : Int.fdiv (A2.«end» + B2.begin) 2 = midAt l k j := by
              rw [hA2end, hB2begin, hmidkj]
            by_cases hle : A2.dist B2 ≤ mB
            · rw [if_pos hle]
              have hbt : bridgeTarget c mB l k = some j :=
                bridgeTarget_eq_some c mB l k j I B hI hIt hf hB hdpos
                  (by rw [← hdA2B2]; exact hle)
              apply List.ext_getElem?
              intro i
              rw [stateAfter_getElem?]
              by_cases hik : i = k
              · subst hik
                rw [List.getElem?_set_ne (by omega),
                  List.getElem?_set_self (by omega), hI, Option.map_some']
                have hend1 : (transformAt c mB l (i + 1) i I).«end» =
                    midAt l i j := by
                  rw [transformAt_end, hbt]
                  simp only
                  rw [if_pos (Nat.lt_succ_self i)]
                have heq : transformAt c mB l (i + 1) i I =
                    ⟨A2.begin, midAt l i j, I.type⟩ := by
                  rw [transformAt_eta c mB l (i + 1) i I, hend1,
                    transformAt_begin_succ_self c mB l i I]
                rw [heq, hmid']
                rfl
              · by_cases hij : i = j
                · subst hij
                  rw [List.getElem?_set_self (by rw [List.length_set, hSlen]; omega),
                    hB, Option.map_some']
                  have hbeg1 : (transformAt c mB l (k + 1) i B).begin =
                      midAt l k i := by
                    rw [transformAt_begin, hlastj]
                    simp only
                    rw [hbt]
                    simp
                  have hend2 : (transformAt c mB l (k + 1) i B).«end» =
                      B.«end» :=
                    transformAt_end_of_ge c mB l (k + 1) i B (by omega)
                  have heq : transformAt c mB l (k + 1) i B =
                      ⟨midAt l k i, B.«end», B.type⟩ := by
                    rw [transformAt_eta c mB l (k + 1) i B, hbeg1, hend2]
                  rw [heq, hmid', hB2end]
                  rfl
                · rw [List.getElem?_set_ne (fun h => hij h.symm),
                    List.getElem?_set_ne (fun h => hik h.symm), hS,
                    stateAfter_getElem?]
                  cases hJ : l[i]? with
                  | none => rfl
                  | some J =>
                      rw [Option.map_some', Option.map_some',
                        transformAt_succ_of_bridge_other c mB l k j hbt i hik
                          hij J]
            · rw [if_neg hle]
              have hbtnone : bridgeTarget c mB l k = none := by
                apply bridgeTarget_none_char c mB l k I hI hIt
                intro j0 B0 hj0 hB0
                rw [hf] at hj0
                cases hj0
                have hBB0 : B0 = B := Option.some.inj (hB0.symm.trans hB)
                subst hBB0
                intro hc
                exact hle (by rw [hdA2B2]; exact hc.2)
              rw [stateAfter_succ_of_no_bridge c mB l k hbtnone]
      · have ht := turn_skip_other c mB S k A2 hSk (by rw [hA2type]; exact hIt)
        rw [ht, stateAfter_succ_of_no_bridge c mB l k
          (bridgeTarget_none_of_type c mB l k I hI hIt)]

theorem go_stateAfter (c : SubtitleType) (mB : Int) (l : List Interval)
    (H1 : List.Pairwise (fun A B : Interval => A.begin ≤ B.begin) l)
    (H3 : List.Pairwise
      (fun A B : Interval => A.type = c → B.type = c → 0 < A.dist B) l) :
    ∀ (n k : Nat),
      IIRPassFillFlashBlank.go c mB n k (stateAfter c mB l k) =
        stateAfter c mB l (k + n) := by
  intro n
  induction n with
  | zero => intro k; rw [Nat.add_zero]; rfl
  | succ n ih =>
      intro k
      rw [IIRPassFillFlashBlank.go, turn_stateAfter c mB l H1 H3 k, ih (k + 1)]
      congr 1
      omega

/-- Closed form of the whole sweep on a strictly gapped channel. -/
theorem go_closed (c : SubtitleType) (mB : Int) (l : List Interval)
    (H1 : List.Pairwise (fun A B : Interval => A.begin ≤ B.begin) l)
    (H3 : List.Pairwise
      (fun A B : Interval => A.type = c → B.type = c → 0 < A.dist B) l) :
    IIRPassFillFlashBlank.go c mB l.length 0 l =
      stateAfter c mB l l.length := by
  have h0 := stateAfter_zero c mB l
  have h := go_stateAfter c mB l H1 H3 l.length 0
  rw [h0] at h
  rw [h, Nat.zero_add]

theorem stateAfter_consec_le (c : SubtitleType) (mB : Int) (l : List Interval)
    (H1 : List.Pairwise (fun A B : Interval => A.begin ≤ B.begin) l)
    (H3 : List.Pairwise
      (fun A B : Interval => A.type = c → B.type = c → 0 < A.dist B) l)
    (p j : Nat) (A B : Interval) (hA : l[p]? = some A) (hAt : A.type = c)
    (hf : firstCFrom c l l.length (p + 1) = some j) (hB : l[j]? = some B) :
    (transformAt c mB l l.length p A).«end» ≤
      (transformAt c mB l l.length j B).begin := by
  obtain ⟨hj1, B0, hB0, hB0t⟩ := firstCFrom_found c l l.length (p + 1) j hf
  have hBt : B.type = c := by
    have : B0 = B := Option.some.inj (hB0.symm.trans hB)
    rw [← this]; exact hB0t
  obtain ⟨hplt, hAe⟩ := List.getElem?_eq_some_iff.mp hA
  obtain ⟨hjlt, hBe⟩ := List.getElem?_eq_some_iff.mp hB
  have hlastj : lastCBefore c l j = some p :=
    lastCBefore_eq_of c l j p A (by omega) hA hAt
      (fun m X h1 h2 hX =>
        firstCFrom_between c l l.length (p + 1) j hf m X (by omega) h2 hX)
  have hori : A.begin ≤ B.begin := by
    have h := List.pairwise_iff_getElem.mp H1 p j hplt hjlt (by omega)
    rw [hAe, hBe] at h
    exact h
  have hdpos : 0 < A.dist B := by
    have h := List.pairwise_iff_getElem.mp H3 p j hplt hjlt (by omega)
    rw [hAe, hBe] at h
    exact h hAt hBt
  have hdAB : A.dist B = B.begin - A.«end» := dist_eq_of_le A B hori
  by_cases hle : A.dist B ≤ mB
  · have hbt : bridgeTarget c mB l p = some j :=
      bridgeTarget_eq_some c mB l p j A B hA hAt hf hB hdpos hle
    have he : (transformAt c mB l l.length p A).«end» = midAt l p j := by
      rw [transformAt_end, hbt]
      simp only
      rw [if_pos hplt]
    have hb : (transformAt c mB l l.length j B).begin = midAt l p j := by
      rw [transformAt_begin, hlastj]
      simp only
      rw [hbt]
      simp [hplt]
    rw [he, hb]
  · have hbtn : bridgeTarget c mB l p = none := by
      apply bridgeTarget_none_char c mB l p A hA hAt
      intro j0 B0' hj0 hB0'
      rw [hf] at hj0
      cases hj0
      have hBB : B0' = B := Option.some.inj (hB0'.symm.trans hB)
      subst hBB
      intro hc
      exact hle hc.2
    have he : (transformAt c mB l l.length p A).«end» = A.«end» := by
      rw [transformAt_end, hbtn]
    have hb : (transformAt c mB l l.length j B).begin = B.begin := by
      rw [transformAt_begin, hlastj]
      simp only
      rw [hbtn]
    rw [he, hb]
    omega

theorem stateAfter_pairs_le (c : SubtitleType) (mB : Int) (l : List Interval)
    (H1 : List.Pairwise (fun A B : Interval => A.begin ≤ B.begin) l)
    (H2all : ∀ I ∈ l, I.begin ≤ I.«end»)
    (H3 : List.Pairwise
      (fun A B : Interval => A.type = c → B.type = c → 0 < A.dist B) l) :
    ∀ (d p r : Nat) (A R : Interval), r - p ≤ d → p < r →
      l[p]? = some A → A.type = c → l[r]? = some R → R.type = c →
      (transformAt c mB l l.length p A).«end» ≤
        (transformAt c mB l l.length r R).begin := by
  intro d
  induction d with
  | zero => intro p r A R h1 h2; omega
  | succ d ih =>
      intro p r A R h1 h2 hA hAt hR hRt
      obtain ⟨hrlt, -⟩ := List.getElem?_eq_some_iff.mp hR
      obtain ⟨j, hf, hjr⟩ :=
        firstCFrom_le c l l.length (p + 1) r R (by omega) (by omega) hR hRt
      obtain ⟨hj1, B, hB, hBt⟩ := firstCFrom_found c l l.length (p + 1) j hf
      rcases Nat.eq_or_lt_of_le hjr with rfl | hjlt2
      · have h := stateAfter_consec_le c mB l H1 H3 p j A B hA hAt hf hB
        have hBR : B = R := Option.some.inj (hB.symm.trans hR)
        rw [hBR] at h
        exact h
      · have hcons := stateAfter_consec_le c mB l H1 H3 p j A B hA hAt hf hB
        have hmid : (transformAt c mB l l.length j B).begin ≤
            (transformAt c mB l l.length j B).«end» := by
          have h1 := transformAt_begin_le c mB l H1 l.length j B hB
          have h2 := transformAt_end_ge c mB l H1 l.length j B hB
          have h3 : B.begin ≤ B.«end» := H2all B (List.getElem?_mem hB)
          omega
        have hrec := ih j r B R (by omega) (by omega) hB hBt hR hRt
        omega

theorem stateAfter_begin_lt (c : SubtitleType) (mB : Int) (l : List Interval)
    (H1 : List.Pairwise (fun A B : Interval => A.begin ≤ B.begin) l)
    (H2all : ∀ I ∈ l, I.begin ≤ I.«end»)
    (H2c : ∀ I ∈ l, I.type = c → I.begin < I.«end»)
    (H3 : List.Pairwise
      (fun A B : Interval => A.type = c → B.type = c → 0 < A.dist B) l)
    (p r : Nat) (A R : Interval) (hpr : p < r)
    (hA : l[p]? = some A) (hAt : A.type = c)
    (hR : l[r]? = some R) (hRt : R.type = c) :
    (transformAt c mB l l.length p A).begin <
      (transformAt c mB l l.length r R).begin := by
  have h1 := transformAt_begin_le c mB l H1 l.length p A hA
  have h2 : A.begin < A.«end» := H2c A (List.getElem?_mem hA) hAt
  have h3 := transformAt_end_ge c mB l H1 l.length p A hA
  have h4 := stateAfter_pairs_le c mB l H1 H2all H3 (r - p) p r A R
    (le_refl _) hpr hA hAt hR hRt
  omega

theorem stateAfter_pairwise_dist (c : SubtitleType) (mB : Int)
    (l : List Interval)
    (H1 : List.Pairwise (fun A B : Interval => A.begin ≤ B.begin) l)
    (H2all : ∀ I ∈ l, I.begin ≤ I.«end»)
    (H2c : ∀ I ∈ l, I.type = c → I.begin < I.«end»)
    (H3 : List.Pairwise
      (fun A B : Interval => A.type = c → B.type = c → 0 < A.dist B) l) :
    List.Pairwise
      (fun A B : Interval => A.type = c → B.type = c →
        0 ≤ A.dist B ∧ 0 ≤ B.dist A)
      (stateAfter c mB l l.length) := by
  rw [List.pairwise_iff_getElem]
  intro p q hp hq hpq
  have hplt : p < l.length := by
    have := stateAfter_length c mB l l.length; omega
  have hqlt : q < l.length := by
    have := stateAfter_length c mB l l.length; omega
  have hAo : l[p]? = some (l[p]) := List.getElem?_eq_getElem hplt
  have hRo : l[q]? = some (l[q]) := List.getElem?_eq_getElem hqlt
  have hSp : (stateAfter c mB l l.length)[p] =
      transformAt c mB l l.length p (l[p]) := by
    have h1 : (stateAfter c mB l l.length)[p]? =
        some (transformAt c mB l l.length p (l[p])) := by
      rw [stateAfter_getElem?, hAo]; rfl
    have h2 := List.getElem?_eq_getElem hp
    exact Option.some.inj (h2.symm.trans h1)
  have hSq : (stateAfter c mB l l.length)[q] =
      transformAt c mB l l.length q (l[q]) := by
    have h1 : (stateAfter c mB l l.length)[q]? =
        some (transformAt c mB l l.length q (l[q])) := by
      rw [stateAfter_getElem?, hRo]; rfl
    have h2 := List.getElem?_eq_getElem hq
    exact Option.some.inj (h2.symm.trans h1)
  intro hpt hqt
  rw [hSp, transformAt_type] at hpt
  rw [hSq, transformAt_type] at hqt
  have hble := stateAfter_pairs_le c mB l H1 H2all H3 (q - p) p q
    (l[p]) (l[q]) (le_refl _) hpq hAo hpt hRo hqt
  have hblt := stateAfter_begin_lt c mB l H1 H2all H2c H3 p q
    (l[p]) (l[q]) hpq hAo hpt hRo hqt
  rw [hSp, hSq]
  constructor
  · rw [dist_eq_of_le _ _ (le_of_lt hblt)]
    omega
  · rw [Interval.dist, if_pos (by omega)]
    omega

/-- C4 amended: on a begin-sorted collection whose intervals satisfy
`begin ≤ end` (strictly for the channel's intervals) and whose same-channel
intervals are pairwise at strictly positive distance, the pass leaves no two
same-channel intervals at `dist < 0`, and every channel-`c` interval bridged
with its next same-channel neighbour at original distance in
`(0, maxGap]` ends the sweep with both facing endpoints at
`floor((A.end + B.begin) / 2)` of the original values. -/
theorem fillFlashBlank_disjoint_amended (c : SubtitleType) (maxBlank : Int)
    (l : List Interval)
    (H1 : List.Pairwise (fun A B : Interval => A.begin ≤ B.begin) l)
    (H2all : ∀ I ∈ l, I.begin ≤ I.«end»)
    (H2c : ∀ I ∈ l, I.type = c → I.begin < I.«end»)
    (H3 : List.Pairwise
      (fun A B : Interval => A.type = c → B.type = c → 0 < A.dist B) l) :
    List.Pairwise
      (fun A B : Interval => A.type = c → B.type = c →
        0 ≤ A.dist B ∧ 0 ≤ B.dist A)
      (IIRPassFillFlashBlank.apply c maxBlank l) ∧
    (∀ (p j : Nat) (A B : Interval), l[p]? = some A → A.type = c →
      firstCFrom c l l.length (p + 1) = some j → l[j]? = some B →
      0 < A.dist B → A.dist B ≤ maxBlank →
      ∃ A2 B2,
        (IIRPassFillFlashBlank.go c maxBlank l.length 0 l)[p]? = some A2 ∧
        (IIRPassFillFlashBlank.go c maxBlank l.length 0 l)[j]? = some B2 ∧
        A2.«end» = Int.fdiv (A.«end» + B.begin) 2 ∧
        B2.begin = Int.fdiv (A.«end» + B.begin) 2) := by
  have hclosed := go_closed c maxBlank l H1 H3
  constructor
  · rw [IIRPassFillFlashBlank.apply]
    have hsymm : ∀ {x y : Interval},
        (x.type = c → y.type = c → 0 ≤ x.dist y ∧ 0 ≤ y.dist x) →
        (y.type = c → x.type = c → 0 ≤ y.dist x ∧ 0 ≤ x.dist y) :=
      fun h hyt hxt => ⟨(h hxt hyt).2, (h hxt hyt).1⟩
    rw [List.Perm.pairwise_iff hsymm
      (sort_perm (IIRPassFillFlashBlank.go c maxBlank l.length 0 l))]
    rw [hclosed]
    exact stateAfter_pairwise_dist c maxBlank l H1 H2all H2c H3
  · intro p j A B hA hAt hf hB hd hle
    obtain ⟨hplt, hAe⟩ := List.getElem?_eq_some_iff.mp hA
    have hbt : bridgeTarget c maxBlank l p = some j :=
      bridgeTarget_eq_some c maxBlank l p j A B hA hAt hf hB hd hle
    have hlastj : lastCBefore c l j = some p := by
      obtain ⟨hj1, B0, hB0, hB0t⟩ := firstCFrom_found c l l.length (p + 1) j hf
      exact lastCBefore_eq_of c l j p A (by omega) hA hAt
        (fun m X h1 h2 hX =>
          firstCFrom_between c l l.length (p + 1) j hf m X (by omega) h2 hX)
    have hmidv : midAt l p j = Int.fdiv (A.«end» + B.begin) 2 := by
      rw [midAt, hA, hB]
    refine ⟨transformAt c maxBlank l l.length p A,
      transformAt c maxBlank l l.length j B, ?_, ?_, ?_, ?_⟩
    · rw [hclosed, stateAfter_getElem?, hA]; rfl
    · rw [hclosed, stateAfter_getElem?, hB]; rfl
    · rw [transformAt_end, hbt]
      simp only
      rw [if_pos hplt, hmidv]
    · rw [transformAt_begin, hlastj]
      simp only
      rw [hbt]
      simp only
      rw [← hmidv]
      simp [hplt]

/-- Witness for C4 amended at Scenario 2's input (sorted, nonempty, strictly
disjoint DIALOG intervals). -/
theorem fillFlashBlank_disjoint_amended_witness :
    List.Pairwise
      (fun A B : Interval => A.type = .DIALOG → B.type = .DIALOG →
        0 ≤ A.dist B ∧ 0 ≤ B.dist A)
      (IIRPassFillFlashBlank.apply .DIALOG 100 scen2In) :=
  (fillFlashBlank_disjoint_amended .DIALOG 100 scen2In (by decide) (by decide)
    (by decide) (by decide)).1

end Magia

